import Mathlib

/-!
# Verification of the AI-Knowledge-Assistant persistence and generation layer

Shallow embedding of `backend/services/local_storage.py`,
`backend/services/cosmos.py` (shared `_normalize_timestamp`),
`backend/services/gemini.py` and the local-mode branch of
`backend/main.py:list_documents`, together with proofs of the spec's
testable properties.

Modelling conventions:
* Python's unbounded integers are `Int`/`Nat`.
* A Python function that can raise becomes `Option`/`Except`; `none` /
  `.error` means an exception escapes the function.
* Wall-clock time (`datetime.now`, `time.time`) is passed in explicitly.
* Python `datetime` (a standard-library collaborator, not repository code)
  is modelled by an explicit proleptic-Gregorian calendar: day 0 is
  0001-01-01, matching `datetime.toordinal` shifted by one.
  `datetime.fromtimestamp(v, tz=utc)` accepts exactly the epochs whose
  UTC year lies in 1..9999, i.e. `-62135596800 ≤ v ≤ 253402300799`,
  and raises otherwise; this matches CPython.
-/

set_option maxHeartbeats 1600000
set_option maxRecDepth 100000

/-! ## Digits -/

/-- The decimal digit characters, as rendered by Python's `%02d`/`%04d`. -/
def digitChar (n : Nat) : Char :=
  match n with
  | 0 => '0' | 1 => '1' | 2 => '2' | 3 => '3' | 4 => '4'
  | 5 => '5' | 6 => '6' | 7 => '7' | 8 => '8' | 9 => '9'
  | _ => '*'

/-- Decimal digit value of a character, as read by `datetime.fromisoformat`. -/
def digitVal (c : Char) : Option Nat :=
  if c = '0' then some 0 else if c = '1' then some 1 else
  if c = '2' then some 2 else if c = '3' then some 3 else
  if c = '4' then some 4 else if c = '5' then some 5 else
  if c = '6' then some 6 else if c = '7' then some 7 else
  if c = '8' then some 8 else if c = '9' then some 9 else none

/-- Two-digit zero-padded rendering (`%02d`). -/
def pad2 (n : Nat) : List Char := [digitChar (n / 10), digitChar (n % 10)]

/-- Four-digit zero-padded rendering (`%04d`). -/
def pad4 (n : Nat) : List Char :=
  [digitChar (n / 1000), digitChar (n / 100 % 10), digitChar (n / 10 % 10), digitChar (n % 10)]

theorem digitVal_digitChar {n : Nat} (h : n < 10) : digitVal (digitChar n) = some n := by
  interval_cases n <;> decide

theorem digitChar_digitVal {c : Char} {n : Nat} (h : digitVal c = some n) :
    digitChar n = c := by
  unfold digitVal at h
  split_ifs at h <;> simp_all <;> subst_vars <;> rfl

theorem digitVal_lt {c : Char} {n : Nat} (h : digitVal c = some n) : n < 10 := by
  unfold digitVal at h
  split_ifs at h <;> simp_all <;> omega

/-! ## Proleptic Gregorian calendar (model of Python `datetime` internals) -/

/-- Gregorian leap-year test. -/
def leapYear (y : Nat) : Bool := (y % 4 == 0 && y % 100 != 0) || y % 400 == 0

/-- Days in a calendar year. -/
def daysInYear (y : Nat) : Nat := if leapYear y then 366 else 365

/-- Days strictly before year `y`, counting from 0001-01-01 as day 0
(`datetime.toordinal` minus one). -/
def daysBeforeYear (y : Nat) : Nat :=
  365 * (y - 1) + (y - 1) / 4 - (y - 1) / 100 + (y - 1) / 400

/-- Days in month `m` (1..12) of a year with leap flag `l`. -/
def daysInMonth (m : Nat) (l : Bool) : Nat :=
  match m with
  | 1 => 31 | 2 => if l then 29 else 28 | 3 => 31 | 4 => 30
  | 5 => 31 | 6 => 30 | 7 => 31 | 8 => 31
  | 9 => 30 | 10 => 31 | 11 => 30 | 12 => 31
  | _ => 0

/-- Days strictly before month `m` within a year with leap flag `l`. -/
def daysBeforeMonth (m : Nat) (l : Bool) : Nat :=
  match m with
  | 0 => 0
  | n + 1 => daysBeforeMonth n l + daysInMonth n l

/-- Year search: peel whole years off a day count, starting at year `cur`. -/
def yearGo (cur rem fuel : Nat) : Nat × Nat :=
  match fuel with
  | 0 => (cur, rem)
  | fuel + 1 =>
    if rem < daysInYear cur then (cur, rem)
    else yearGo (cur + 1) (rem - daysInYear cur) fuel

/-- Convert a day count (day 0 = 0001-01-01) to `(year, dayOfYear)`.
Whole 400-year eras (146097 days each) are peeled by exact division first,
then at most 400 single years. -/
def yearFromDays (n : Nat) : Nat × Nat :=
  yearGo (1 + n / 146097 * 400) (n % 146097) 400

/-- Month search within a year. -/
def monthGo (l : Bool) (m rem fuel : Nat) : Nat × Nat :=
  match fuel with
  | 0 => (m, rem + 1)
  | fuel + 1 =>
    if rem < daysInMonth m l then (m, rem + 1)
    else monthGo l (m + 1) (rem - daysInMonth m l) fuel

/-- Convert a day-of-year (0-based) to `(month, dayOfMonth)` (1-based). -/
def monthFromDoy (doy : Nat) (l : Bool) : Nat × Nat := monthGo l 1 doy 12

/-- Day count of a civil date (inverse direction, used when parsing). -/
def daysFromCivil (y m d : Nat) : Nat :=
  daysBeforeYear y + daysBeforeMonth m (leapYear y) + (d - 1)

/-- Seconds between 0001-01-01T00:00:00 and 1970-01-01T00:00:00. -/
def epochShift : Nat := 62135596800

/-- Smallest epoch accepted by `datetime.fromtimestamp(..., tz=utc)`. -/
def epochMin : Int := -62135596800

/-- Largest epoch accepted by `datetime.fromtimestamp(..., tz=utc)`. -/
def epochMax : Int := 253402300799

/-- Epoch values on which `datetime.fromtimestamp(..., tz=utc)` succeeds. -/
def epochInRange (e : Int) : Prop := epochMin ≤ e ∧ e ≤ epochMax

instance (e : Int) : Decidable (epochInRange e) := by
  unfold epochInRange; infer_instance

/-- Canonical rendering of an epoch:
`datetime.fromtimestamp(e, tz=utc).replace(microsecond=0).isoformat().replace("+00:00","Z")`,
as a character list. Meaningful for `epochInRange e`. -/
def isoFormatChars (e : Int) : List Char :=
  let n := (e + (epochShift : Int)).toNat
  let days := n / 86400
  let sod := n % 86400
  let yd := yearFromDays days
  let md := monthFromDoy yd.2 (leapYear yd.1)
  pad4 yd.1 ++ '-' :: pad2 md.1 ++ '-' :: pad2 md.2 ++
    'T' :: pad2 (sod / 3600) ++ ':' :: pad2 (sod % 3600 / 60) ++ ':' :: pad2 (sod % 60) ++ ['Z']

/-- Canonical rendering of an epoch, as a string. -/
def isoFormat (e : Int) : String := ⟨isoFormatChars e⟩

/-! ## Model of `datetime.fromisoformat`

The repository calls `datetime.fromisoformat` on
`candidate.replace("Z", "+00:00")`.  CPython 3.11 accepts more shapes than
this model (year-only dates, basic format without separators, fractional
parts introduced by a comma, offsets without a colon) and also validates
the day against the month length; those inputs differ only in *which*
fallback value a garbage string produces and are not exercised by any
property below, so the model keeps to the extended format
`YYYY-MM-DD[(T| )HH:MM[:SS[.ffffff]][±HH:MM]]`. -/

/-- A parsed datetime: components plus an optional UTC offset in minutes. -/
structure PyDateTime where
  year : Nat
  month : Nat
  day : Nat
  hour : Nat
  minute : Nat
  second : Nat
  offMinutes : Option Int
  deriving Repr, DecidableEq

/-- Consume one expected character. -/
def expectChar (c : Char) : List Char → Option (List Char)
  | x :: rest => if x = c then some rest else none
  | [] => none

/-- Consume two decimal digits. -/
def dig2 : List Char → Option (Nat × List Char)
  | a :: b :: rest =>
    match digitVal a, digitVal b with
    | some x, some y => some (10 * x + y, rest)
    | _, _ => none
  | _ => none

/-- Consume four decimal digits. -/
def dig4 : List Char → Option (Nat × List Char)
  | a :: b :: c :: d :: rest =>
    match digitVal a, digitVal b, digitVal c, digitVal d with
    | some w, some x, some y, some z => some (1000 * w + 100 * x + 10 * y + z, rest)
    | _, _, _, _ => none
  | _ => none

/-- Consume a nonempty run of decimal digits (a fractional-second part). -/
def dropDigits : List Char → List Char
  | c :: rest => if (digitVal c).isSome then dropDigits rest else c :: rest
  | [] => []

/-- Consume an optional `.ffffff` fractional part (discarded: the caller
applies `replace(microsecond=0)`). -/
def dropFraction : List Char → Option (List Char)
  | '.' :: c :: rest =>
    if (digitVal c).isSome then some (dropDigits rest) else none
  | l => some l

/-- Parse a `±HH:MM` UTC offset tail; must consume the whole input. -/
def parseOffsetTail (sign : Int) (l : List Char) : Option Int := do
  let (oh, l) ← dig2 l
  let l ← expectChar ':' l
  let (om, l) ← dig2 l
  if oh ≤ 23 ∧ om ≤ 59 ∧ l = [] then
    some (sign * (60 * oh + om))
  else none

/-- Parse the `[:SS[.ffffff]]` seconds tail. -/
def parseSeconds : List Char → Option (Nat × List Char)
  | ':' :: rest => do
    let (s, l) ← dig2 rest
    let l ← dropFraction l
    some (s, l)
  | l => some (0, l)

/-- Parse the optional offset at the end of a time string. -/
def parseOffsetOpt : List Char → Option (Option Int)
  | [] => some none
  | '+' :: rest => do some (some (← parseOffsetTail 1 rest))
  | '-' :: rest => do some (some (← parseOffsetTail (-1) rest))
  | _ => none

/-- Parse the `HH:MM[:SS[.ffffff]][±HH:MM]` time part. -/
def parseTimePart (y mo d : Nat) (l : List Char) : Option PyDateTime := do
  let (h, l) ← dig2 l
  let l ← expectChar ':' l
  let (mi, l) ← dig2 l
  let (s, l) ← parseSeconds l
  let off ← parseOffsetOpt l
  if h ≤ 23 ∧ mi ≤ 59 ∧ s ≤ 59 then
    some ⟨y, mo, d, h, mi, s, off⟩
  else none

/-- Model of `datetime.fromisoformat` (on the subset described above);
`none` models `ValueError`. -/
def fromisoformat (str : List Char) : Option PyDateTime := do
  let (y, l) ← dig4 str
  let l ← expectChar '-' l
  let (mo, l) ← dig2 l
  let l ← expectChar '-' l
  let (d, l) ← dig2 l
  if 1 ≤ y ∧ 1 ≤ mo ∧ mo ≤ 12 ∧ 1 ≤ d ∧ d ≤ 31 then
    match l with
    | [] => some ⟨y, mo, d, 0, 0, 0, none⟩
    | sep :: rest =>
      if sep = 'T' ∨ sep = ' ' then parseTimePart y mo d rest else none
  else none

/-- POSIX epoch of a parsed datetime read as UTC components. -/
def naiveEpoch (dt : PyDateTime) : Int :=
  (86400 * daysFromCivil dt.year dt.month dt.day
    + 3600 * dt.hour + 60 * dt.minute + dt.second : Nat) - (epochShift : Int)

/-- POSIX epoch of a parsed datetime after `.astimezone(timezone.utc)`.
A datetime carrying an offset denotes `naive - offset`; a naive datetime is
interpreted in the process-local timezone, modelled by `localOff` seconds. -/
def awareEpoch (localOff : Int) (dt : PyDateTime) : Int :=
  match dt.offMinutes with
  | some o => naiveEpoch dt - 60 * o
  | none => naiveEpoch dt - localOff

/-! ## Models of Python primitives used by `_normalize_timestamp` -/

/-- Python whitespace stripped by `str.strip()` (ASCII subset). -/
def pySpace (c : Char) : Bool :=
  c = ' ' ∨ c = '\t' ∨ c = '\n' ∨ c = '\r' ∨ c = '\x0b' ∨ c = '\x0c'

/-- Model of `str.strip()`. -/
def pyStrip (l : List Char) : List Char :=
  ((l.dropWhile pySpace).reverse.dropWhile pySpace).reverse

/-- Model of `str.strip()` at string level. -/
def pyStripStr (s : String) : String := ⟨pyStrip s.data⟩

/-- Model of `candidate.replace("Z", "+00:00")` (single-character pattern,
every occurrence replaced). -/
def replaceZ : List Char → List Char
  | [] => []
  | c :: rest =>
    if c = 'Z' then '+' :: '0' :: '0' :: ':' :: '0' :: '0' :: replaceZ rest
    else c :: replaceZ rest

/-- Model of `float(candidate)` restricted to sign/digits/point shapes,
returning the floor of the value (the whole-second truncation that
`fromtimestamp` + `replace(microsecond=0)` performs).  Exponent forms,
underscores, and `inf`/`nan` are outside the model. -/
def pyFloatFloor (l : List Char) : Option Int :=
  let (sign, l) := match l with
    | '+' :: rest => ((1 : Int), rest)
    | '-' :: rest => ((-1 : Int), rest)
    | rest => ((1 : Int), rest)
  let intDigits := l.takeWhile (fun c => (digitVal c).isSome)
  let l2 := l.dropWhile (fun c => (digitVal c).isSome)
  let intPart := intDigits.foldl (fun acc c => 10 * acc + (digitVal c).getD 0) 0
  match l2 with
  | [] =>
    if intDigits = [] then none else some (sign * intPart)
  | '.' :: rest =>
    let fracDigits := rest.takeWhile (fun c => (digitVal c).isSome)
    let rest2 := rest.dropWhile (fun c => (digitVal c).isSome)
    if rest2 = [] ∧ (intDigits ≠ [] ∨ fracDigits ≠ []) then
      if sign = -1 ∧ fracDigits.any (fun c => digitVal c ≠ some 0) then
        some (-(intPart + 1))
      else some (sign * intPart)
    else none
  | _ => none

/-! ## `_normalize_timestamp` (local_storage.py lines 35-60, cosmos.py 57-81) -/

/-- A persisted timestamp value as found in a record: JSON null / absent
key, a number (integral; `float` with a fractional part behaves the same
after whole-second truncation), or a string. -/
inductive TsValue where
  | null
  | num (n : Int)
  | str (s : String)
  deriving Repr, DecidableEq

/-- Model of `_normalize_timestamp`.  `now` is the current POSIX time
(`datetime.now`), `localOff` the process-local UTC offset in seconds used
by `astimezone` on naive datetimes.  `none` models an exception escaping
the function: `fromtimestamp` on a numeric value outside years 1..9999
(`OverflowError`/`ValueError`, not caught on the numeric path), or
`astimezone` overflowing past year 1/9999 (`OverflowError`, not caught on
the string path).  An out-of-range numeric *string* is modelled as the
caught-`ValueError` fallback to now; CPython raises an uncatchable
`OSError`/`OverflowError` instead only beyond roughly 2^31 years. -/
def normalize_timestamp (now localOff : Int) : TsValue → Option String
  | .null => some (isoFormat now)
  | .num n => if epochInRange n then some (isoFormat n) else none
  | .str s =>
    if s = "" then some (isoFormat now)
    else
      let candidate := pyStrip s.data
      if candidate = [] then some (isoFormat now)
      else
        match fromisoformat (replaceZ candidate) with
        | some dt =>
          let e := awareEpoch localOff dt
          if epochInRange e then some (isoFormat e) else none
        | none =>
          match pyFloatFloor candidate with
          | some v => if epochInRange v then some (isoFormat v) else some (isoFormat now)
          | none => some (isoFormat now)

/-- The inputs on which `_normalize_timestamp` cannot raise: numbers must
be epochs inside years 1..9999, and an ISO string's UTC conversion must
also land inside years 1..9999. -/
def safeTs (localOff : Int) : TsValue → Bool
  | .null => true
  | .num n => decide (epochInRange n)
  | .str s =>
    match fromisoformat (replaceZ (pyStrip s.data)) with
    | some dt => decide (epochInRange (awareEpoch localOff dt))
    | none => true

/-- The canonical-timestamp format: `YYYY-MM-DDTHH:MM:SSZ` with a valid
proleptic-Gregorian date and in-range time fields. -/
def canonComponents (l : List Char) : Option (Nat × Nat × Nat × Nat × Nat × Nat) := do
  let (y, l) ← dig4 l
  let l ← expectChar '-' l
  let (mo, l) ← dig2 l
  let l ← expectChar '-' l
  let (d, l) ← dig2 l
  let l ← expectChar 'T' l
  let (h, l) ← dig2 l
  let l ← expectChar ':' l
  let (mi, l) ← dig2 l
  let l ← expectChar ':' l
  let (sec, l) ← dig2 l
  let l ← expectChar 'Z' l
  if l = [] ∧ 1 ≤ y ∧ 1 ≤ mo ∧ mo ≤ 12 ∧ 1 ≤ d ∧ d ≤ daysInMonth mo (leapYear y) ∧
      h ≤ 23 ∧ mi ≤ 59 ∧ sec ≤ 59 then
    some (y, mo, d, h, mi, sec)
  else none

def isCanonicalTs (s : String) : Bool := (canonComponents s.data).isSome

/-- The canonical character sequence for given components, without the
final `Z`. -/
def canonFront (y mo d h mi sec : Nat) : List Char :=
  pad4 y ++ '-' :: pad2 mo ++ '-' :: pad2 d ++
    'T' :: pad2 h ++ ':' :: pad2 mi ++ ':' :: pad2 sec

/-- The canonical character sequence for given components. -/
def canonChars (y mo d h mi sec : Nat) : List Char :=
  canonFront y mo d h mi sec ++ ['Z']

/-- The POSIX epoch denoted by UTC components. -/
def componentEpoch (y mo d h mi sec : Nat) : Int :=
  (86400 * daysFromCivil y mo d + 3600 * h + 60 * mi + sec : Nat) - (epochShift : Int)

/-- Valid canonical components: a real proleptic-Gregorian date with
in-range time fields and a four-digit year. -/
def validComponents (y mo d h mi sec : Nat) : Prop :=
  1 ≤ y ∧ y ≤ 9999 ∧ 1 ≤ mo ∧ mo ≤ 12 ∧ 1 ≤ d ∧ d ≤ daysInMonth mo (leapYear y) ∧
  h ≤ 23 ∧ mi ≤ 59 ∧ sec ≤ 59

instance (y mo d h mi sec : Nat) : Decidable (validComponents y mo d h mi sec) := by
  unfold validComponents; infer_instance

/-! ## Generation client (gemini.py) -/

/-- `_min_request_interval = 2.0`. -/
def min_request_interval : ℚ := 2

/-- `max_retries = 3`. -/
def max_retries : Nat := 3

/-- `base_delay = 3.0`. -/
def base_delay : ℚ := 3

/-- The visible truncation marker appended by `_truncate`. -/
def truncationMarker : String := "...\n[Truncated for length]"

/-- Model of `_truncate(text, max_chars=12000)`. -/
def truncate (text : String) (maxChars : Nat := 12000) : String :=
  if text.length ≤ maxChars then text
  else ⟨text.data.take maxChars⟩ ++ truncationMarker

/-- `SYSTEM_PROMPT`. -/
def SYSTEM_PROMPT : String :=
  "You are an assistant that answers questions strictly using the " ++
  "provided document text. If the answer cannot be found, reply with " ++
  "a short apology and say it's unavailable."

/-- The prompt assembled by `get_gemini_response`. -/
def assembledPrompt (documentText question : String) : String :=
  SYSTEM_PROMPT ++ "\n\n" ++
  "Document Text:\n" ++ truncate documentText ++ "\n\n" ++
  "Question:\n" ++ pyStripStr question ++ "\n\n" ++
  "Answer:"

/-- Outcome of one underlying `client.models.generate_content` call:
either a response (already `(resp.text or "").strip()`-normalized by
`_invoke`) or an exception whose message is `str(e)`. -/
inductive CallOutcome where
  | success (text : String)
  | failure (errorMsg : String)

/-- Does `l` start with `pat`? -/
def startsWithChars (pat l : List Char) : Bool :=
  match pat, l with
  | [], _ => true
  | _ :: _, [] => false
  | a :: as, b :: bs => a == b && startsWithChars as bs

/-- Does `l` contain `pat` as a contiguous run? -/
def hasSubChars (pat : List Char) : List Char → Bool
  | [] => pat.isEmpty
  | c :: rest => startsWithChars pat (c :: rest) || hasSubChars pat rest

/-- Substring test on strings (Python `in`). -/
def containsSub (s pat : String) : Bool := hasSubChars pat.data s.data

/-- The quota / rate-limit error classification in `get_gemini_response`. -/
def isQuotaError (msg : String) : Bool :=
  containsSub msg "429" || containsSub msg "RESOURCE_EXHAUSTED" ||
  containsSub msg.toLower "quota" || containsSub msg "Too Many Requests"

/-- Errors raised by the generation client, per the spec taxonomy.  In the
code all three are distinct exceptions: `ValueError` for an empty
question, and two `RuntimeError`s distinguished by their message (the
quota one carries the remediation text). -/
inductive GenError where
  | validationError (msg : String)
  | quotaExhausted (msg : String)
  | generationFailed (msg : String)
  deriving Repr, DecidableEq

/-- The user-facing remediation message raised on quota exhaustion. -/
def quotaMessage : String :=
  "⏱️ API quota limit reached. The free tier has strict rate limits. " ++
  "Please wait 60 seconds and try again, or upgrade your API key at " ++
  "https://ai.google.dev/pricing"

/-- The retry loop of `get_gemini_response` (`for attempt in range(3)`).
Returns the result, the total backoff slept, and the number of attempts
made.  `outcomes i` is the result of the underlying call on attempt `i`. -/
def attemptLoop (outcomes : Nat → CallOutcome) (attempt : Nat) :
    Nat → Except GenError String × ℚ × Nat
  | 0 => (.error (.generationFailed "Failed to get response from AI service after all retries"),
      0, 0)
  | fuel + 1 =>
    match outcomes attempt with
    | .success s => (.ok s, 0, 1)
    | .failure msg =>
      if isQuotaError msg then
        if attempt < max_retries - 1 then
          let rest := attemptLoop outcomes (attempt + 1) fuel
          (rest.1, base_delay * 2 ^ attempt + rest.2.1, rest.2.2 + 1)
        else (.error (.quotaExhausted quotaMessage), 0, 1)
      else
        if attempt < max_retries - 1 then
          let rest := attemptLoop outcomes (attempt + 1) fuel
          (rest.1, base_delay * 2 ^ attempt + rest.2.1, rest.2.2 + 1)
        else
          (.error (.generationFailed ("Failed to get response from AI service: " ++ msg)),
            0, 1)

/-- Wait imposed by the shared-interval rate limiter: the code sleeps
`_min_request_interval - (current_time - _last_request_time)` when that
gap is still below the minimum. -/
def rateWait (currentTime lastRequestTime : ℚ) : ℚ :=
  if currentTime - lastRequestTime < min_request_interval then
    min_request_interval - (currentTime - lastRequestTime)
  else 0

/-- The instant the call is dispatched: entry time plus any rate wait
(idealized time: `asyncio.sleep` sleeps exactly the requested duration). -/
def dispatchTime (currentTime lastRequestTime : ℚ) : ℚ :=
  currentTime + rateWait currentTime lastRequestTime

/-- Result of one `get_gemini_response` call in the model. -/
structure GenResult where
  result : Except GenError String
  /-- `_last_request_time` after the call returns. -/
  lastRequestTime : ℚ
  /-- Time spent in the rate-limiter sleep. -/
  rateSleep : ℚ
  /-- Total time spent in backoff sleeps. -/
  backoffSleep : ℚ
  /-- Number of underlying generation attempts issued. -/
  attempts : Nat
  deriving Repr

/-- Model of `get_gemini_response(document_text, question)`.  `t0` is
`time.time()` at entry, `last` the shared `_last_request_time`;
`outcomes` the underlying generation call.  The document text and the
question only shape the prompt, which the retry loop passes through
unchanged, so `outcomes` is indexed by attempt only. -/
def get_gemini_response (question : String) (t0 last : ℚ)
    (outcomes : Nat → CallOutcome) : GenResult :=
  if pyStripStr question = "" then
    ⟨.error (.validationError "Question must not be empty."), last, 0, 0, 0⟩
  else
    let w := rateWait t0 last
    let newLast := t0 + w
    let loop := attemptLoop outcomes 0 max_retries
    ⟨loop.1, newLast, w, loop.2.1, loop.2.2⟩

/-! ## Local storage backend (local_storage.py) -/

/-- A persisted Document record (the dict written by `save_document`;
fields that legacy records may lack are `Option`). -/
structure StoredDoc where
  id : String
  user_id : String
  file_name : Option String
  blob_name : Option String
  blob_url : Option String
  document_text : String
  created_at : TsValue
  type : Option String
  deriving Repr, DecidableEq

/-- A persisted Message record (the dict written by `save_message`;
fields that legacy records may lack are `Option`). -/
structure StoredMsg where
  id : Option String
  user_id : Option String
  doc_id : Option String
  role : String
  content : Option String
  message : Option String
  timestamp : TsValue
  type : Option String
  deriving Repr, DecidableEq

/-- The JSON database file: two lists. -/
structure LocalDB where
  documents : List StoredDoc
  messages : List StoredMsg
  deriving Repr, DecidableEq

/-- Failures of the storage read operations: `ValueError("Document not
found.")`. -/
inductive StorageErr where
  | notFound
  deriving Repr, DecidableEq

/-- Model of `get_document_text(user_id, doc_id)` (local_storage.py
lines 128-139): first Document matching both fields, else NotFound. -/
def get_document_text (db : LocalDB) (user_id doc_id : String) :
    Except StorageErr String :=
  match db.documents.find? (fun doc => doc.user_id == user_id && doc.id == doc_id) with
  | some doc => .ok doc.document_text
  | none => .error .notFound

/-- Python truthiness on an optional string: `None` and `""` are falsy. -/
def truthyStr : Option String → Option String
  | some s => if s = "" then none else some s
  | none => none

/-- `entry.get("content") or entry.get("message") or ""`. -/
def resolvedContent (m : StoredMsg) : String :=
  match truthyStr m.content with
  | some c => c
  | none =>
    match truthyStr m.message with
    | some c => c
    | none => ""

/-- The in-place healing `get_history` applies to a matching message:
fill a missing/empty id, materialize `content` from the legacy `message`
field, normalize the timestamp, default the `type` discriminator.
`none` models `_normalize_timestamp` raising. -/
def healMsg (now localOff : Int) (freshId : String) (m : StoredMsg) :
    Option StoredMsg := do
  let ts ← normalize_timestamp now localOff m.timestamp
  some { m with
    id := some (match m.id with
      | some s => if s = "" then freshId else s
      | none => freshId),
    content := some (resolvedContent m),
    timestamp := .str ts,
    type := some (m.type.getD "message") }

/-- The dict appended to the `normalized` result list. -/
structure MsgOut where
  id : String
  type : String
  user_id : String
  doc_id : String
  role : String
  content : String
  timestamp : String
  deriving Repr, DecidableEq

/-- Shape a healed message entry for the client. -/
def msgOut (m : StoredMsg) : MsgOut :=
  ⟨m.id.getD "", m.type.getD "", m.user_id.getD "", m.doc_id.getD "", m.role,
   m.content.getD "",
   match m.timestamp with
   | .str s => s
   | _ => ""⟩

/-- The filter at the top of the message loop. -/
def msgMatches (u d : String) (m : StoredMsg) : Bool :=
  m.user_id == some u && m.doc_id == some d

/-- The message loop of `get_history`: heal matching entries in place
(indexed so each entry draws its own fresh uuid), collect their shaped
forms. -/
def healMessages (now localOff : Int) (fresh : Nat → String) (u d : String) :
    Nat → List StoredMsg → Option (List StoredMsg × List MsgOut)
  | _, [] => some ([], [])
  | i, m :: rest =>
    if msgMatches u d m then do
      let hm ← healMsg now localOff (fresh i) m
      let (hrest, outs) ← healMessages now localOff fresh u d (i + 1) rest
      some (hm :: hrest, msgOut hm :: outs)
    else do
      let (hrest, outs) ← healMessages now localOff fresh u d (i + 1) rest
      some (m :: hrest, outs)

/-- Lexicographic comparison of character lists by code point — how
Python compares the timestamp strings when sorting. -/
def charsLe : List Char → List Char → Bool
  | [], _ => true
  | _ :: _, [] => false
  | a :: as, b :: bs => if a = b then charsLe as bs else decide (a < b)

/-- Python string `<=`. -/
def strLe (a b : String) : Bool := charsLe a.data b.data

/-- The sort key relation: ascending normalized timestamp string. -/
def tsLe (a b : MsgOut) : Prop := strLe a.timestamp b.timestamp = true

instance : DecidableRel tsLe := fun a b =>
  inferInstanceAs (Decidable (strLe a.timestamp b.timestamp = true))

/-- A value of a client-facing document dict. -/
inductive FieldVal where
  | s (v : String)
  | null
  deriving Repr, DecidableEq

/-- A client-facing document summary: a Python dict, field order kept. -/
abbrev DocDict := List (String × FieldVal)

/-- Dict key lookup. -/
def dictGet (d : DocDict) (k : String) : Option FieldVal :=
  (d.find? (fun p => p.1 == k)).map (fun p => p.2)

/-- `doc.get(k, dflt)`. -/
def pyGet (d : DocDict) (k : String) (dflt : FieldVal) : FieldVal :=
  (dictGet d k).getD dflt

/-- Lift an optional stored field to a dict value. -/
def optField : Option String → FieldVal
  | some s => .s s
  | none => .null

/-- The document branch of `get_history`: heal `created_at` on matching
documents, shape summaries. -/
def healDocs (now localOff : Int) (u : String) :
    List StoredDoc → Option (List StoredDoc × List DocDict)
  | [] => some ([], [])
  | doc :: rest =>
    if doc.user_id == u then do
      let ca ← normalize_timestamp now localOff doc.created_at
      let (hrest, outs) ← healDocs now localOff u rest
      some ({ doc with created_at := .str ca } :: hrest,
        [("id", .s doc.id), ("type", .s (doc.type.getD "document")),
         ("user_id", .s doc.user_id), ("file_name", .s (doc.file_name.getD "")),
         ("blob_name", optField doc.blob_name), ("blob_url", optField doc.blob_url),
         ("created_at", .s ca)] :: outs)
    else do
      let (hrest, outs) ← healDocs now localOff u rest
      some (doc :: hrest, outs)

/-- What `get_history` returns: messages for one conversation, or
document summaries. -/
inductive HistOut where
  | messages (l : List MsgOut)
  | documents (l : List DocDict)
  deriving Repr, DecidableEq

/-- Python truthiness of the `doc_id` argument (`if doc_id:`). -/
def docIdTruthy : Option String → Bool
  | some s => s != ""
  | none => false

/-- Model of `get_history(user_id, doc_id)` (local_storage.py lines
164-240).  Returns the client-facing result and the database as
persisted afterwards (the self-heal write-back); `none` models an
exception escaping (timestamp normalization raising). -/
def get_history (db : LocalDB) (user_id : String) (doc_id : Option String)
    (now localOff : Int) (fresh : Nat → String) : Option (HistOut × LocalDB) :=
  if docIdTruthy doc_id then do
    let (healed, outs) ←
      healMessages now localOff fresh user_id (doc_id.getD "") 0 db.messages
    some (.messages (List.insertionSort tsLe outs), { db with messages := healed })
  else do
    let (healedDocs, outs) ← healDocs now localOff user_id db.documents
    some (.documents outs, { db with documents := healedDocs })

/-- Model of the local-mode branch of `list_documents` (main.py lines
166-196): call `get_history(user_id)` and reshape each summary to the
four response fields. -/
def list_documents (db : LocalDB) (user_id : String) (now localOff : Int)
    (fresh : Nat → String) : Option (List DocDict) := do
  match ← get_history db user_id none now localOff fresh with
  | (.documents docs, _) =>
    some (docs.map (fun doc =>
      [("id", pyGet doc "id" .null), ("file_name", pyGet doc "file_name" (.s "")),
       ("blob_url", pyGet doc "blob_url" .null),
       ("created_at", pyGet doc "created_at" .null)]))
  | _ => none

example : isoFormat 0 = "1970-01-01T00:00:00Z" := by decide
example : isoFormat 1622896496 = "2021-06-05T12:34:56Z" := by decide
example : isoFormat epochMin = "0001-01-01T00:00:00Z" := by decide
example : isoFormat epochMax = "9999-12-31T23:59:59Z" := by decide
example : isoFormat (-4) = "1969-12-31T23:59:56Z" := by decide

/-! ## Calendar lemmas -/

theorem daysBeforeYear_succ (y : Nat) (h : 1 ≤ y) :
    daysBeforeYear (y + 1) = daysBeforeYear y + daysInYear y := by
  unfold daysBeforeYear daysInYear leapYear
  simp only [Nat.add_sub_cancel]
  split_ifs with hl
  · simp only [Bool.or_eq_true, Bool.and_eq_true, beq_iff_eq, bne_iff_ne, ne_eq,
      decide_eq_true_eq] at hl
    omega
  · simp only [Bool.or_eq_true, Bool.and_eq_true, beq_iff_eq, bne_iff_ne, ne_eq,
      decide_eq_true_eq, not_or, not_and] at hl
    omega

theorem daysBeforeYear_mono : ∀ {a b : Nat}, 1 ≤ a → a ≤ b →
    daysBeforeYear a ≤ daysBeforeYear b := by
  intro a b ha hab
  induction b with
  | zero => omega
  | succ n ih =>
    rcases Nat.lt_or_ge a (n + 1) with h | h
    · have h1 : 1 ≤ n := by omega
      have := daysBeforeYear_succ n h1
      have := ih (by omega)
      omega
    · have : a = n + 1 := by omega
      subst this; exact Nat.le_refl _

theorem daysBeforeYear_era (e : Nat) :
    daysBeforeYear (1 + e * 400) = e * 146097 := by
  unfold daysBeforeYear
  simp only [Nat.add_sub_cancel_left]
  omega

theorem yearGo_spec : ∀ (fuel cur rem : Nat), 1 ≤ cur →
    daysBeforeYear cur + rem < daysBeforeYear (cur + fuel) →
    1 ≤ (yearGo cur rem fuel).1 ∧
    daysBeforeYear (yearGo cur rem fuel).1 + (yearGo cur rem fuel).2 =
      daysBeforeYear cur + rem ∧
    (yearGo cur rem fuel).2 < daysInYear (yearGo cur rem fuel).1 := by
  intro fuel
  induction fuel with
  | zero =>
    intro cur rem hc hbound
    simp only [Nat.add_zero] at hbound
    omega
  | succ f ih =>
    intro cur rem hc hbound
    unfold yearGo
    split_ifs with hlt
    · exact ⟨hc, rfl, hlt⟩
    · have hrec := daysBeforeYear_succ cur hc
      have hb2 : daysBeforeYear (cur + 1) + (rem - daysInYear cur) <
          daysBeforeYear (cur + 1 + f) := by
        have : cur + 1 + f = cur + (f + 1) := by omega
        rw [this]; omega
      have := ih (cur + 1) (rem - daysInYear cur) (by omega) hb2
      omega

/-- `yearFromDays` is a correct decomposition on the whole supported range. -/
theorem yearFromDays_spec (n : Nat) (h : n < 3652425) :
    1 ≤ (yearFromDays n).1 ∧
    daysBeforeYear (yearFromDays n).1 + (yearFromDays n).2 = n ∧
    (yearFromDays n).2 < daysInYear (yearFromDays n).1 := by
  unfold yearFromDays
  have hera := daysBeforeYear_era (n / 146097)
  have hera2 := daysBeforeYear_era (n / 146097 + 1)
  have hbound : daysBeforeYear (1 + n / 146097 * 400) + n % 146097 <
      daysBeforeYear (1 + n / 146097 * 400 + 400) := by
    have : 1 + n / 146097 * 400 + 400 = 1 + (n / 146097 + 1) * 400 := by omega
    rw [this, hera, hera2]
    omega
  have := yearGo_spec 400 (1 + n / 146097 * 400) (n % 146097) (by omega) hbound
  omega

/-- Uniqueness: decomposing the day count of a valid `(year, dayOfYear)` pair
recovers that pair. -/
theorem yearFromDays_unique (y doy : Nat) (hy : 1 ≤ y) (hy2 : y ≤ 9999)
    (hd : doy < daysInYear y) :
    yearFromDays (daysBeforeYear y + doy) = (y, doy) := by
  have hmax : daysBeforeYear y + doy < 3652425 := by
    have h1 := daysBeforeYear_mono hy hy2
    have h2 : daysBeforeYear 9999 = 3651694 := by decide
    have h3 : daysInYear y ≤ 366 := by
      unfold daysInYear; split_ifs <;> omega
    omega
  have hspec := yearFromDays_spec (daysBeforeYear y + doy) hmax
  set p := yearFromDays (daysBeforeYear y + doy) with hp
  obtain ⟨h1, h2, h3⟩ := hspec
  have hiff : p.1 = y := by
    rcases Nat.lt_trichotomy p.1 y with h | h | h
    · have := daysBeforeYear_succ p.1 h1
      have := daysBeforeYear_mono (a := p.1 + 1) (b := y) (by omega) (by omega)
      omega
    · exact h
    · have := daysBeforeYear_succ y hy
      have := daysBeforeYear_mono (a := y + 1) (b := p.1) (by omega) (by omega)
      omega
  have : p.2 = doy := by rw [hiff] at h2; omega
  have hpair : p = (p.1, p.2) := rfl
  rw [hpair, hiff, this]

/-- Month decomposition is correct for every day-of-year of a year. -/
theorem monthFromDoy_spec : ∀ (l : Bool) (doy : Nat),
    doy < (if l then 366 else 365) →
    1 ≤ (monthFromDoy doy l).1 ∧ (monthFromDoy doy l).1 ≤ 12 ∧
    1 ≤ (monthFromDoy doy l).2 ∧
    (monthFromDoy doy l).2 ≤ daysInMonth (monthFromDoy doy l).1 l ∧
    daysBeforeMonth (monthFromDoy doy l).1 l + ((monthFromDoy doy l).2 - 1) = doy := by
  intro l doy
  cases l
  · intro h
    revert doy
    decide
  · intro h
    revert doy
    decide

/-- Month decomposition is the inverse of the month/day sum on valid dates. -/
theorem monthFromDoy_unique : ∀ (l : Bool) (m : Nat), 1 ≤ m → m ≤ 12 →
    ∀ d : Nat, 1 ≤ d → d ≤ daysInMonth m l →
    monthFromDoy (daysBeforeMonth m l + (d - 1)) l = (m, d) := by
  decide

/-- A valid month/day position lies inside the year. -/
theorem daysBeforeMonth_lt : ∀ (l : Bool) (m : Nat), 1 ≤ m → m ≤ 12 →
    ∀ d : Nat, 1 ≤ d → d ≤ daysInMonth m l →
    daysBeforeMonth m l + (d - 1) < (if l then 366 else 365) := by
  decide

/-! ## Substring lemmas -/

theorem startsWithChars_self (pat l : List Char) :
    startsWithChars pat (pat ++ l) = true := by
  induction pat with
  | nil => rfl
  | cons c cs ih => simp [startsWithChars, ih]

theorem hasSubChars_of_starts {pat l : List Char}
    (h : startsWithChars pat l = true) : hasSubChars pat l = true := by
  cases l with
  | nil =>
    cases pat with
    | nil => rfl
    | cons c cs => simp [startsWithChars] at h
  | cons c rest => simp [hasSubChars, h]

theorem hasSubChars_extend (pat l1 rest : List Char)
    (h : hasSubChars pat rest = true) : hasSubChars pat (l1 ++ rest) = true := by
  induction l1 with
  | nil => simpa
  | cons c cs ih => simp [hasSubChars, ih]

theorem hasSubChars_mid (pat l1 l2 : List Char) :
    hasSubChars pat (l1 ++ (pat ++ l2)) = true :=
  hasSubChars_extend pat l1 (pat ++ l2)
    (hasSubChars_of_starts (startsWithChars_self pat l2))

/-! ## C1: document lookup and owner isolation -/

/-- C1: `getDocumentText(userId, docId)` returns the stored text of a
Document matching both `userId` and `docId` when one exists, and fails
with NotFound when no Document matches both — in particular a `docId`
collision under a different user still yields NotFound. -/
theorem getDocumentText_owner_isolation (db : LocalDB) (u d : String) :
    ((∀ doc ∈ db.documents, ¬(doc.user_id = u ∧ doc.id = d)) →
      get_document_text db u d = .error .notFound) ∧
    (∀ doc ∈ db.documents, doc.user_id = u → doc.id = d →
      ∃ m ∈ db.documents, m.user_id = u ∧ m.id = d ∧
        get_document_text db u d = .ok m.document_text) := by
  constructor
  · intro hnone
    unfold get_document_text
    have : db.documents.find? (fun doc => doc.user_id == u && doc.id == d) = none := by
      rw [List.find?_eq_none]
      intro x hx
      have := hnone x hx
      simp only [Bool.and_eq_true, beq_iff_eq]
      tauto
    rw [this]
  · intro doc hmem hu hd
    unfold get_document_text
    cases hfind : db.documents.find? (fun doc => doc.user_id == u && doc.id == d) with
    | none =>
      rw [List.find?_eq_none] at hfind
      exact absurd (by simp [hu, hd]) (hfind doc hmem)
    | some m =>
      refine ⟨m, List.mem_of_find?_eq_some hfind, ?_, ?_, rfl⟩ <;>
        have := List.find?_some hfind <;> simp at this <;> tauto

/-- The document saved in the spec scenario: `d1` owned by `u1`. -/
def docD1 : StoredDoc :=
  { id := "d1", user_id := "u1", file_name := some "f.pdf",
    blob_name := some "u1/f.pdf", blob_url := some "file:///tmp/u1/f.pdf",
    document_text := "hello world", created_at := .str "2021-01-01T00:00:00Z",
    type := some "document" }

/-- The spec scenario database: one document `d1` owned by `u1`. -/
def dbScenario1 : LocalDB := { documents := [docD1], messages := [] }

theorem getDocumentText_owner_isolation_witness :
    get_document_text dbScenario1 "u1" "d1" = .ok "hello world" ∧
    get_document_text dbScenario1 "u2" "d1" = .error .notFound := by
  constructor
  · obtain ⟨m, hmem, hu, hd, hres⟩ :=
      (getDocumentText_owner_isolation dbScenario1 "u1" "d1").2
        docD1 (by simp [dbScenario1]) rfl rfl
    have hm : m = docD1 := by simpa [dbScenario1] using hmem
    rw [hres, hm]
    rfl
  · exact (getDocumentText_owner_isolation dbScenario1 "u2" "d1").1 (by decide)

/-! ## C7: prompt truncation -/

/-- C7: a document text longer than the 12000-character budget yields a
prompt containing the visible truncation marker, with exactly the first
12000 characters of the original text present; a document within the
budget is included unchanged, with nothing appended. -/
theorem prompt_truncation (documentText question : String) :
    (12000 < documentText.length →
      truncate documentText = (⟨documentText.data.take 12000⟩ : String) ++ truncationMarker ∧
      (⟨documentText.data.take 12000⟩ : String).length = 12000 ∧
      containsSub (assembledPrompt documentText question) truncationMarker = true) ∧
    (documentText.length ≤ 12000 → truncate documentText = documentText) := by
  constructor
  · intro hlong
    have htr : truncate documentText =
        (⟨documentText.data.take 12000⟩ : String) ++ truncationMarker := by
      unfold truncate
      rw [if_neg (by omega)]
    refine ⟨htr, ?_, ?_⟩
    · show (documentText.data.take 12000).length = 12000
      rw [List.length_take]
      have : documentText.data.length = documentText.length := rfl
      omega
    · unfold assembledPrompt containsSub
      rw [htr]
      have hsplit : (SYSTEM_PROMPT ++ "\n\n" ++ "Document Text:\n" ++
          ((⟨documentText.data.take 12000⟩ : String) ++ truncationMarker) ++ "\n\n" ++
          "Question:\n" ++ pyStripStr question ++ "\n\n" ++ "Answer:").data =
          (SYSTEM_PROMPT.data ++ "\n\n".data ++ "Document Text:\n".data ++
            documentText.data.take 12000) ++
          (truncationMarker.data ++
            ("\n\n".data ++ ("Question:\n".data ++ ((pyStripStr question).data ++ ("\n\n".data ++
              "Answer:".data))))) := by
        simp only [String.data_append, List.append_assoc]
      rw [hsplit]
      exact hasSubChars_extend _ _ _
        (hasSubChars_of_starts (startsWithChars_self _ _))
  · intro hshort
    unfold truncate
    rw [if_pos hshort]

/-- A 12001-character document for the truncation witness. -/
def bigDoc : String := ⟨List.replicate 12001 'a'⟩

theorem prompt_truncation_witness :
    (12000 < bigDoc.length ∧
      containsSub (assembledPrompt bigDoc "q?") truncationMarker = true) ∧
    ("hi".length ≤ 12000 ∧ truncate "hi" = "hi") := by
  have hlen : bigDoc.length = 12001 := by
    show (List.replicate 12001 'a').length = 12001
    rw [List.length_replicate]
  refine ⟨⟨by omega, ((prompt_truncation bigDoc "q?").1 (by omega)).2.2⟩,
    by decide, (prompt_truncation "hi" "q?").2 (by decide)⟩

/-! ## C5: quota-exhaustion retry schedule -/

/-- C5: when the underlying call fails with a quota-signature error on
every attempt, the client makes exactly `max_retries = 3` attempts,
sleeps `base_delay * 2 ^ attempt` between attempts (3 + 6 units in
total), and fails with the distinct QuotaExhausted error carrying the
user-facing remediation message, not the generic GenerationFailed one. -/
theorem quota_exhaustion_schedule (question : String) (hq : ¬pyStripStr question = "")
    (t0 last : ℚ) (outcomes : Nat → CallOutcome)
    (h : ∀ i < max_retries, ∃ msg, outcomes i = .failure msg ∧ isQuotaError msg = true) :
    (get_gemini_response question t0 last outcomes).result =
      .error (.quotaExhausted quotaMessage) ∧
    (get_gemini_response question t0 last outcomes).backoffSleep = 3 + 6 ∧
    (get_gemini_response question t0 last outcomes).attempts = 3 := by
  obtain ⟨m0, hm0, hq0⟩ := h 0 (by norm_num [max_retries])
  obtain ⟨m1, hm1, hq1⟩ := h 1 (by norm_num [max_retries])
  obtain ⟨m2, hm2, hq2⟩ := h 2 (by norm_num [max_retries])
  have hloop : attemptLoop outcomes 0 max_retries =
      (.error (.quotaExhausted quotaMessage), 3 + 6, 3) := by
    show attemptLoop outcomes 0 3 = _
    simp only [attemptLoop, hm0, hm1, hm2, hq0, hq1, hq2, max_retries, base_delay]
    norm_num
  unfold get_gemini_response
  rw [if_neg hq]
  simp only [hloop]
  norm_num

theorem quota_exhaustion_schedule_witness :
    ¬(pyStripStr "what?" = "") ∧
    (get_gemini_response "what?" 10 0 (fun _ => .failure "429 Too Many Requests")).result =
      .error (.quotaExhausted quotaMessage) ∧
    (get_gemini_response "what?" 10 0
      (fun _ => .failure "429 Too Many Requests")).backoffSleep = 3 + 6 ∧
    (get_gemini_response "what?" 10 0
      (fun _ => .failure "429 Too Many Requests")).attempts = 3 := by
  refine ⟨by decide, quota_exhaustion_schedule "what?" (by decide) 10 0 _ ?_⟩
  intro i _
  exact ⟨"429 Too Many Requests", rfl, by decide⟩

/-! ## C6: minimum-interval rate limiting -/

/-- C6: if a call enters less than `_min_request_interval = 2` units
after the previous call's dispatch (the stored `_last_request_time`),
the client sleeps exactly the remaining difference, so its own dispatch
happens exactly at (hence no earlier than) 2 units after the previous
dispatch; the dispatch instant is what is stored for the next call. -/
theorem rate_limit_min_interval (t0 last : ℚ)
    (h : t0 - last < min_request_interval) :
    dispatchTime t0 last = last + min_request_interval ∧
    last + min_request_interval ≤ dispatchTime t0 last ∧
    (∀ (question : String) (outcomes : Nat → CallOutcome), ¬pyStripStr question = "" →
      (get_gemini_response question t0 last outcomes).lastRequestTime =
        dispatchTime t0 last) := by
  have heq : dispatchTime t0 last = last + min_request_interval := by
    unfold dispatchTime rateWait
    rw [if_pos h]
    ring
  refine ⟨heq, le_of_eq heq.symm, ?_⟩
  intro question outcomes hq
  unfold get_gemini_response
  rw [if_neg hq]
  rfl

/-- The spec scenario: second call 0.5 units before the minimum interval
has elapsed (first dispatch at 0, second entry at 1.5). -/
theorem rate_limit_min_interval_witness :
    ((3 : ℚ) / 2 - 0 < min_request_interval) ∧
    dispatchTime (3 / 2) 0 = 0 + min_request_interval ∧
    (get_gemini_response "q?" (3 / 2) 0 (fun _ => .success "ok")).lastRequestTime =
      dispatchTime (3 / 2) 0 := by
  have h : (3 : ℚ) / 2 - 0 < min_request_interval := by
    norm_num [min_request_interval]
  obtain ⟨h1, _, h3⟩ := rate_limit_min_interval (3 / 2) 0 h
  exact ⟨h, h1, h3 "q?" (fun _ => .success "ok") (by decide)⟩

/-! ## C10: empty-question validation happens first and is effect-free -/

/-- C10: an empty or whitespace-only question raises the validation
error before the rate-limit wait, before any generation attempt and any
retry, leaving the shared `_last_request_time` unchanged.  The whole
observable result is the error with zero sleeps, zero attempts and the
entry state preserved. -/
theorem empty_question_validation (question : String) (hq : pyStripStr question = "")
    (t0 last : ℚ) (outcomes : Nat → CallOutcome) :
    get_gemini_response question t0 last outcomes =
      ⟨.error (.validationError "Question must not be empty."), last, 0, 0, 0⟩ := by
  unfold get_gemini_response
  rw [if_pos hq]

theorem empty_question_validation_witness :
    (pyStripStr "  " = "") ∧
    get_gemini_response "  " 7 5 (fun _ => .success "x") =
      ⟨.error (.validationError "Question must not be empty."), 5, 0, 0, 0⟩ :=
  ⟨by decide, empty_question_validation "  " (by decide) 7 5 (fun _ => .success "x")⟩

/-! ## Render/parse field lemmas -/

theorem expectChar_cons (c : Char) (rest : List Char) :
    expectChar c (c :: rest) = some rest := by
  simp [expectChar]

theorem dig2_pad2 {n : Nat} (h : n < 100) (rest : List Char) :
    dig2 (pad2 n ++ rest) = some (n, rest) := by
  show dig2 (digitChar (n / 10) :: digitChar (n % 10) :: rest) = _
  rw [dig2, digitVal_digitChar (by omega), digitVal_digitChar (by omega)]
  simp
  omega

theorem dig4_pad4 {n : Nat} (h : n < 10000) (rest : List Char) :
    dig4 (pad4 n ++ rest) = some (n, rest) := by
  show dig4 (digitChar (n / 1000) :: digitChar (n / 100 % 10) ::
    digitChar (n / 10 % 10) :: digitChar (n % 10) :: rest) = _
  rw [dig4, digitVal_digitChar (by omega), digitVal_digitChar (by omega),
    digitVal_digitChar (by omega), digitVal_digitChar (by omega)]
  simp
  omega

theorem dig2_inv {l rest : List Char} {n : Nat} (h : dig2 l = some (n, rest)) :
    l = pad2 n ++ rest ∧ n < 100 := by
  match l with
  | [] => simp [dig2] at h
  | [a] => simp [dig2] at h
  | a :: b :: l2 =>
    rw [dig2] at h
    cases ha : digitVal a with
    | none => rw [ha] at h; simp at h
    | some x =>
      cases hb : digitVal b with
      | none => rw [ha, hb] at h; simp at h
      | some y =>
        rw [ha, hb] at h
        simp at h
        obtain ⟨hn, hrest⟩ := h
        have hx := digitVal_lt ha
        have hy := digitVal_lt hb
        constructor
        · rw [← hrest]
          show a :: b :: l2 = digitChar (n / 10) :: digitChar (n % 10) :: l2
          have h1 : n / 10 = x := by omega
          have h2 : n % 10 = y := by omega
          rw [h1, h2, digitChar_digitVal ha, digitChar_digitVal hb]
        · omega

theorem dig4_inv {l rest : List Char} {n : Nat} (h : dig4 l = some (n, rest)) :
    l = pad4 n ++ rest ∧ n < 10000 := by
  match l with
  | [] => simp [dig4] at h
  | [a] => simp [dig4] at h
  | [a, b] => simp [dig4] at h
  | [a, b, c] => simp [dig4] at h
  | a :: b :: c :: d :: l2 =>
    rw [dig4] at h
    cases ha : digitVal a with
    | none => rw [ha] at h; simp at h
    | some w =>
      cases hb : digitVal b with
      | none => rw [ha, hb] at h; simp at h
      | some x =>
        cases hc : digitVal c with
        | none => rw [ha, hb, hc] at h; simp at h
        | some y =>
          cases hd : digitVal d with
          | none => rw [ha, hb, hc, hd] at h; simp at h
          | some z =>
            rw [ha, hb, hc, hd] at h
            simp at h
            obtain ⟨hn, hrest⟩ := h
            have hw := digitVal_lt ha
            have hx := digitVal_lt hb
            have hy := digitVal_lt hc
            have hz := digitVal_lt hd
            constructor
            · rw [← hrest]
              show a :: b :: c :: d :: l2 = digitChar (n / 1000) ::
                digitChar (n / 100 % 10) :: digitChar (n / 10 % 10) ::
                digitChar (n % 10) :: l2
              have h1 : n / 1000 = w := by omega
              have h2 : n / 100 % 10 = x := by omega
              have h3 : n / 10 % 10 = y := by omega
              have h4 : n % 10 = z := by omega
              rw [h1, h2, h3, h4, digitChar_digitVal ha, digitChar_digitVal hb,
                digitChar_digitVal hc, digitChar_digitVal hd]
            · omega

theorem expectChar_inv {c : Char} {l rest : List Char}
    (h : expectChar c l = some rest) : l = c :: rest := by
  match l with
  | [] => simp [expectChar] at h
  | x :: l2 =>
    rw [expectChar] at h
    split_ifs at h with hx
    injection h with h2
    rw [hx, h2]

/-! ## Character-class facts about the canonical rendering -/

theorem digitChar_cases (k : Nat) :
    digitChar k = '0' ∨ digitChar k = '1' ∨ digitChar k = '2' ∨ digitChar k = '3' ∨
    digitChar k = '4' ∨ digitChar k = '5' ∨ digitChar k = '6' ∨ digitChar k = '7' ∨
    digitChar k = '8' ∨ digitChar k = '9' ∨ digitChar k = '*' := by
  unfold digitChar
  split <;> simp

theorem digitChar_ne_Z (k : Nat) : digitChar k ≠ 'Z' := by
  unfold digitChar; split <;> decide

theorem digitChar_not_space (k : Nat) : pySpace (digitChar k) = false := by
  unfold digitChar; split <;> decide

theorem canonFront_no_Z (y mo d h mi sec : Nat) :
    ∀ c ∈ canonFront y mo d h mi sec, c ≠ 'Z' := by
  intro c hc
  simp [canonFront, pad4, pad2] at hc
  casesm* _ ∨ _ <;> subst_vars <;>
    first
    | decide
    | exact digitChar_ne_Z _

theorem canonChars_no_space (y mo d h mi sec : Nat) :
    ∀ c ∈ canonChars y mo d h mi sec, pySpace c = false := by
  intro c hc
  simp [canonChars, canonFront, pad4, pad2] at hc
  casesm* _ ∨ _ <;> subst_vars <;>
    first
    | decide
    | exact digitChar_not_space _

theorem pyStrip_eq_self {l : List Char} (h : ∀ c ∈ l, pySpace c = false) :
    pyStrip l = l := by
  have hdrop : ∀ (m : List Char), (∀ c ∈ m, pySpace c = false) →
      m.dropWhile pySpace = m := by
    intro m hm
    cases m with
    | nil => rfl
    | cons c rest => simp [List.dropWhile, hm c (by simp)]
  unfold pyStrip
  rw [hdrop l h, hdrop l.reverse (by intro c hc; exact h c (List.mem_reverse.mp hc)),
    List.reverse_reverse]

theorem replaceZ_append {l1 : List Char} (l2 : List Char)
    (h : ∀ c ∈ l1, c ≠ 'Z') : replaceZ (l1 ++ l2) = l1 ++ replaceZ l2 := by
  induction l1 with
  | nil => rfl
  | cons c rest ih =>
    show replaceZ (c :: (rest ++ l2)) = _
    rw [replaceZ, if_neg (h c (by simp))]
    rw [ih (fun x hx => h x (by simp [hx]))]
    rfl

/-! ## Epoch/component correspondence -/

theorem daysInMonth_le (l : Bool) (mo : Nat) : daysInMonth mo l ≤ 31 := by
  unfold daysInMonth
  split <;> first | decide | (cases l <;> decide)

theorem daysBeforeMonth_le (l : Bool) : ∀ mo : Nat, mo ≤ 12 →
    daysBeforeMonth mo l ≤ 335 := by
  cases l <;> decide

theorem daysBeforeMonth_le_nonleap : ∀ mo : Nat, mo ≤ 12 →
    daysBeforeMonth mo false ≤ 334 := by
  decide

/-- Decomposition of an in-range epoch into valid canonical components. -/
theorem isoFormat_components (e : Int) (he : epochInRange e) :
    ∃ y mo d h mi sec, validComponents y mo d h mi sec ∧
      isoFormatChars e = canonChars y mo d h mi sec ∧
      componentEpoch y mo d h mi sec = e := by
  obtain ⟨he1, he2⟩ := he
  simp only [epochMin, epochMax] at he1 he2
  have hsh : (epochShift : Int) = 62135596800 := rfl
  have h0 : (0 : Int) ≤ e + (epochShift : Int) := by rw [hsh]; omega
  set n := (e + (epochShift : Int)).toNat with hn
  have hnint : (n : Int) = e + (epochShift : Int) := Int.toNat_of_nonneg h0
  have hnbound : n ≤ 315537897599 := by
    have : (n : Int) ≤ 315537897599 := by rw [hnint, hsh]; omega
    exact_mod_cast this
  have hdays : n / 86400 < 3652425 := by omega
  obtain ⟨hy1, hy2, hy3⟩ := yearFromDays_spec (n / 86400) hdays
  set p := yearFromDays (n / 86400) with hp
  have hy9999 : p.1 ≤ 9999 := by
    by_contra hgt
    have h10000 : daysBeforeYear 10000 = 3652059 := by decide
    have hmono := daysBeforeYear_mono (a := 10000) (b := p.1) (by omega) (by omega)
    omega
  have hdoy : p.2 < (if leapYear p.1 then 366 else 365) := by
    have := hy3
    unfold daysInYear at this
    exact this
  obtain ⟨hm1, hm2, hm3, hm4, hm5⟩ := monthFromDoy_spec (leapYear p.1) p.2 hdoy
  set q := monthFromDoy p.2 (leapYear p.1) with hq
  refine ⟨p.1, q.1, q.2, n % 86400 / 3600, n % 86400 % 3600 / 60, n % 86400 % 60,
    ⟨hy1, hy9999, hm1, hm2, hm3, hm4, by omega, by omega, by omega⟩, ?_, ?_⟩
  · simp only [isoFormatChars, canonChars, canonFront, ← hn, ← hp, ← hq]
  · unfold componentEpoch daysFromCivil
    have hfc : daysBeforeYear p.1 + daysBeforeMonth q.1 (leapYear p.1) + (q.2 - 1) =
        n / 86400 := by omega
    rw [hfc]
    have htod : 86400 * (n / 86400) + 3600 * (n % 86400 / 3600) +
        60 * (n % 86400 % 3600 / 60) + n % 86400 % 60 = n := by omega
    rw [htod]
    omega

/-- Valid components denote an in-range epoch, and rendering that epoch
reproduces exactly the canonical characters of the components. -/
theorem componentEpoch_inRange {y mo d h mi sec : Nat}
    (hv : validComponents y mo d h mi sec) :
    epochInRange (componentEpoch y mo d h mi sec) ∧
    isoFormatChars (componentEpoch y mo d h mi sec) = canonChars y mo d h mi sec := by
  obtain ⟨h1, h2, h3, h4, h5, h6, h7, h8, h9⟩ := hv
  have hdim := daysInMonth_le (leapYear y) mo
  have hdfc : daysFromCivil y mo d ≤ 3652058 := by
    unfold daysFromCivil
    rcases Nat.lt_or_ge y 9999 with hy | hy
    · have h9998 : daysBeforeYear 9998 = 3651329 := by decide
      have hmono := daysBeforeYear_mono (a := y) (b := 9998) h1 (by omega)
      have hdbm := daysBeforeMonth_le (leapYear y) mo h4
      omega
    · have hy9 : y = 9999 := by omega
      subst hy9
      have hleap : leapYear 9999 = false := by decide
      rw [hleap]
      have h9999 : daysBeforeYear 9999 = 3651694 := by decide
      have hdbm := daysBeforeMonth_le_nonleap mo h4
      omega
  have hdfc2 : daysFromCivil y mo d = daysBeforeYear y +
      (daysBeforeMonth mo (leapYear y) + (d - 1)) := by
    unfold daysFromCivil
    omega
  set N : Nat := 86400 * daysFromCivil y mo d + 3600 * h + 60 * mi + sec with hN
  have hNbound : N ≤ 315537897599 := by
    rw [hN]; omega
  have hsh : (epochShift : Int) = 62135596800 := rfl
  have hEint : componentEpoch y mo d h mi sec = (N : Int) - (epochShift : Int) := rfl
  have hrange : epochInRange (componentEpoch y mo d h mi sec) := by
    constructor
    · rw [hEint, hsh]
      simp only [epochMin]
      omega
    · rw [hEint, hsh]
      simp only [epochMax]
      have : (N : Int) ≤ 315537897599 := by exact_mod_cast hNbound
      omega
  refine ⟨hrange, ?_⟩
  have htoNat : (componentEpoch y mo d h mi sec + (epochShift : Int)).toNat = N := by
    rw [hEint]
    have : (N : Int) - epochShift + epochShift = (N : Int) := by ring
    rw [this, Int.toNat_natCast]
  have hdiv : N / 86400 = daysFromCivil y mo d := by rw [hN]; omega
  have hmod : N % 86400 = 3600 * h + 60 * mi + sec := by rw [hN]; omega
  have hdoy : daysBeforeMonth mo (leapYear y) + (d - 1) < daysInYear y := by
    have := daysBeforeMonth_lt (leapYear y) mo h3 h4 d h5 h6
    unfold daysInYear
    exact this
  have hyd : yearFromDays (N / 86400) = (y, daysBeforeMonth mo (leapYear y) + (d - 1)) := by
    rw [hdiv, hdfc2]
    exact yearFromDays_unique y _ h1 h2 hdoy
  have hmd : monthFromDoy (daysBeforeMonth mo (leapYear y) + (d - 1)) (leapYear y) =
      (mo, d) := monthFromDoy_unique (leapYear y) mo h3 h4 d h5 h6
  simp only [isoFormatChars, htoNat, hyd, hmd, canonChars, canonFront]
  have e1 : (3600 * h + 60 * mi + sec) / 3600 = h := by omega
  have e2 : (3600 * h + 60 * mi + sec) % 3600 / 60 = mi := by omega
  have e3 : (3600 * h + 60 * mi + sec) % 60 = sec := by omega
  rw [hmod, e1, e2, e3]

/-- Parsing the canonical rendering (after the `Z` → `+00:00` replacement)
recovers exactly the components with a zero offset. -/
theorem fromisoformat_canonical {y mo d h mi sec : Nat}
    (hv : validComponents y mo d h mi sec) :
    fromisoformat (canonFront y mo d h mi sec ++
        ('+' :: '0' :: '0' :: ':' :: '0' :: '0' :: [])) =
      some ⟨y, mo, d, h, mi, sec, some 0⟩ := by
  obtain ⟨h1, h2, h3, h4, h5, h6, h7, h8, h9⟩ := hv
  have hdim := daysInMonth_le (leapYear y) mo
  have hy : y < 10000 := by omega
  have hassoc : canonFront y mo d h mi sec ++
      ('+' :: '0' :: '0' :: ':' :: '0' :: '0' :: []) =
      pad4 y ++ ('-' :: (pad2 mo ++ ('-' :: (pad2 d ++ ('T' :: (pad2 h ++
        (':' :: (pad2 mi ++ (':' :: (pad2 sec ++
          ('+' :: '0' :: '0' :: ':' :: '0' :: '0' :: []))))))))))) := by
    simp [canonFront]
  have hoff : parseOffsetTail 1 ['0', '0', ':', '0', '0'] = some 0 := by decide
  rw [hassoc]
  unfold fromisoformat
  rw [dig4_pad4 hy]
  simp only [Option.bind_eq_bind, Option.some_bind]
  rw [expectChar_cons]
  simp only [Option.bind_eq_bind, Option.some_bind]
  rw [dig2_pad2 (show mo < 100 by omega)]
  simp only [Option.bind_eq_bind, Option.some_bind]
  rw [expectChar_cons]
  simp only [Option.bind_eq_bind, Option.some_bind]
  rw [dig2_pad2 (show d < 100 by omega)]
  simp only [Option.bind_eq_bind, Option.some_bind]
  rw [if_pos (show 1 ≤ y ∧ 1 ≤ mo ∧ mo ≤ 12 ∧ 1 ≤ d ∧ d ≤ 31 by omega)]
  show parseTimePart y mo d _ = _
  unfold parseTimePart
  rw [dig2_pad2 (show h < 100 by omega)]
  simp only [Option.bind_eq_bind, Option.some_bind]
  rw [expectChar_cons]
  simp only [Option.bind_eq_bind, Option.some_bind]
  rw [dig2_pad2 (show mi < 100 by omega)]
  simp only [Option.bind_eq_bind, Option.some_bind]
  have hsec : parseSeconds (':' :: (pad2 sec ++ ['+', '0', '0', ':', '0', '0'])) =
      some (sec, ['+', '0', '0', ':', '0', '0']) := by
    simp only [parseSeconds]
    rw [dig2_pad2 (show sec < 100 by omega)]
    simp only [Option.bind_eq_bind, Option.some_bind]
    rfl
  have hpo : parseOffsetOpt ['+', '0', '0', ':', '0', '0'] = some (some 0) := by decide
  show (parseSeconds (':' :: (pad2 sec ++ _))).bind _ = _
  rw [hsec]
  simp only [Option.bind_eq_bind, Option.some_bind]
  rw [hpo]
  simp only [Option.bind_eq_bind, Option.some_bind]
  rw [if_pos ⟨h7, h8, h9⟩]

/-- The canonical-shape checker accepts the canonical rendering of valid
components and recovers them. -/
theorem canonComponents_canonChars {y mo d h mi sec : Nat}
    (hv : validComponents y mo d h mi sec) :
    canonComponents (canonChars y mo d h mi sec) = some (y, mo, d, h, mi, sec) := by
  obtain ⟨h1, h2, h3, h4, h5, h6, h7, h8, h9⟩ := hv
  have hdim := daysInMonth_le (leapYear y) mo
  have hy : y < 10000 := by omega
  have hassoc : canonChars y mo d h mi sec =
      pad4 y ++ ('-' :: (pad2 mo ++ ('-' :: (pad2 d ++ ('T' :: (pad2 h ++
        (':' :: (pad2 mi ++ (':' :: (pad2 sec ++ ['Z'])))))))))) := by
    simp [canonChars, canonFront]
  rw [hassoc]
  unfold canonComponents
  rw [dig4_pad4 hy]
  simp only [Option.bind_eq_bind, Option.some_bind]
  rw [expectChar_cons]
  simp only [Option.bind_eq_bind, Option.some_bind]
  rw [dig2_pad2 (show mo < 100 by omega)]
  simp only [Option.bind_eq_bind, Option.some_bind]
  rw [expectChar_cons]
  simp only [Option.bind_eq_bind, Option.some_bind]
  rw [dig2_pad2 (show d < 100 by omega)]
  simp only [Option.bind_eq_bind, Option.some_bind]
  rw [expectChar_cons]
  simp only [Option.bind_eq_bind, Option.some_bind]
  rw [dig2_pad2 (show h < 100 by omega)]
  simp only [Option.bind_eq_bind, Option.some_bind]
  rw [expectChar_cons]
  simp only [Option.bind_eq_bind, Option.some_bind]
  rw [dig2_pad2 (show mi < 100 by omega)]
  simp only [Option.bind_eq_bind, Option.some_bind]
  rw [expectChar_cons]
  simp only [Option.bind_eq_bind, Option.some_bind]
  rw [dig2_pad2 (show sec < 100 by omega)]
  simp only [Option.bind_eq_bind, Option.some_bind]
  rw [expectChar_cons]
  simp only [Option.bind_eq_bind, Option.some_bind]
  simp [h1, h3, h4, h5, h6, h7, h8, h9]

/-- `_normalize_timestamp` maps a canonical string to itself. -/
theorem normalize_canonical {y mo d h mi sec : Nat}
    (hv : validComponents y mo d h mi sec) (now localOff : Int) :
    normalize_timestamp now localOff (.str ⟨canonChars y mo d h mi sec⟩) =
      some (⟨canonChars y mo d h mi sec⟩ : String) := by
  obtain ⟨hrange, hiso⟩ := componentEpoch_inRange hv
  have hnil : canonChars y mo d h mi sec ≠ [] := by
    simp [canonChars, canonFront, pad4]
  have hne : (⟨canonChars y mo d h mi sec⟩ : String) ≠ "" := by
    intro hcontra
    exact hnil (by simpa using congrArg String.data hcontra)
  simp only [normalize_timestamp]
  rw [if_neg hne]
  have hps : pyStrip (canonChars y mo d h mi sec) = canonChars y mo d h mi sec :=
    pyStrip_eq_self (canonChars_no_space y mo d h mi sec)
  simp only [hps]
  rw [if_neg hnil]
  have hrz : replaceZ (canonChars y mo d h mi sec) =
      canonFront y mo d h mi sec ++ ('+' :: '0' :: '0' :: ':' :: '0' :: '0' :: []) := by
    show replaceZ (canonFront y mo d h mi sec ++ ['Z']) = _
    rw [replaceZ_append _ (canonFront_no_Z y mo d h mi sec)]
    rfl
  rw [hrz, fromisoformat_canonical hv]
  show (let e := awareEpoch localOff ⟨y, mo, d, h, mi, sec, some 0⟩;
    if epochInRange e then some (isoFormat e) else none) = _
  have hae : awareEpoch localOff ⟨y, mo, d, h, mi, sec, some 0⟩ =
      componentEpoch y mo d h mi sec := by
    show naiveEpoch ⟨y, mo, d, h, mi, sec, some 0⟩ - 60 * 0 = _
    show (86400 * daysFromCivil y mo d + 3600 * h + 60 * mi + sec : Nat) -
      (epochShift : Int) - 60 * 0 = _
    unfold componentEpoch
    ring
  simp only [hae]
  rw [if_pos hrange]
  show some (⟨isoFormatChars (componentEpoch y mo d h mi sec)⟩ : String) =
    some (⟨canonChars y mo d h mi sec⟩ : String)
  rw [hiso]

/-- A string accepted by the canonical-shape checker is exactly the
canonical rendering of the recovered (valid) components. -/
theorem canonComponents_inv {l : List Char} {y mo d h mi sec : Nat}
    (hcc : canonComponents l = some (y, mo, d, h, mi, sec)) :
    l = canonChars y mo d h mi sec ∧ validComponents y mo d h mi sec := by
  unfold canonComponents at hcc
  simp only [Option.bind_eq_bind, Option.bind_eq_some'] at hcc
  obtain ⟨⟨y1, l1⟩, h4, l2, he1, ⟨mo1, l3⟩, hmo, l4, he2, ⟨d1, l5⟩, hd, l6, he3,
    ⟨h1', l7⟩, hh, l8, he4, ⟨mi1, l9⟩, hmi, l10, he5, ⟨s1, l11⟩, hs, l12, he6, hfin⟩ := hcc
  dsimp only at he1 he2 he3 he4 he5 he6 hfin
  split_ifs at hfin with hcond
  obtain ⟨hnil, hy1, hmo1, hmo2, hd1, hd2, hh1, hmi1, hs1⟩ := hcond
  injection hfin with htup
  have htup2 : y1 = y ∧ mo1 = mo ∧ d1 = d ∧ h1' = h ∧ mi1 = mi ∧ s1 = sec := by
    simpa [Prod.ext_iff] using htup
  obtain ⟨rfl, rfl, rfl, rfl, rfl, rfl⟩ := htup2
  obtain ⟨hl, hylt⟩ := dig4_inv h4
  obtain ⟨hl1, hmolt⟩ := dig2_inv hmo
  obtain ⟨hl3, hdlt⟩ := dig2_inv hd
  obtain ⟨hl5, hhlt⟩ := dig2_inv hh
  obtain ⟨hl7, hmilt⟩ := dig2_inv hmi
  obtain ⟨hl9, hslt⟩ := dig2_inv hs
  have hle1 := expectChar_inv he1
  have hle2 := expectChar_inv he2
  have hle3 := expectChar_inv he3
  have hle4 := expectChar_inv he4
  have hle5 := expectChar_inv he5
  have hle6 := expectChar_inv he6
  constructor
  · subst hnil
    rw [hl, hle1, hl1, hle2, hl3, hle3, hl5, hle4, hl7, hle5, hl9, hle6]
    simp [canonChars, canonFront]
  · exact ⟨hy1, by omega, hmo1, hmo2, hd1, hd2, hh1, hmi1, hs1⟩

/-- Every successful `_normalize_timestamp` result is the canonical
rendering of some in-range epoch (given the current time is in range). -/
theorem normalize_some_form {now localOff : Int} {v : TsValue} {s : String}
    (hnow : epochInRange now) (h : normalize_timestamp now localOff v = some s) :
    ∃ e, epochInRange e ∧ s = isoFormat e := by
  cases v with
  | null =>
    simp only [normalize_timestamp] at h
    exact ⟨now, hnow, by injection h with h2; exact h2.symm⟩
  | num n =>
    simp only [normalize_timestamp] at h
    split_ifs at h with hr
    exact ⟨n, hr, by injection h with h2; exact h2.symm⟩
  | str s0 =>
    simp only [normalize_timestamp] at h
    split_ifs at h with h1 h2
    · exact ⟨now, hnow, by injection h with h3; exact h3.symm⟩
    · exact ⟨now, hnow, by injection h with h3; exact h3.symm⟩
    · cases hp : fromisoformat (replaceZ (pyStrip s0.data)) with
      | some dt =>
        rw [hp] at h
        dsimp only at h
        split_ifs at h with hr
        exact ⟨_, hr, by injection h with h3; exact h3.symm⟩
      | none =>
        rw [hp] at h
        dsimp only at h
        cases hf : pyFloatFloor (pyStrip s0.data) with
        | some w =>
          rw [hf] at h
          dsimp only at h
          split_ifs at h with hr
          · exact ⟨w, hr, by injection h with h3; exact h3.symm⟩
          · exact ⟨now, hnow, by injection h with h3; exact h3.symm⟩
        | none =>
          rw [hf] at h
          dsimp only at h
          exact ⟨now, hnow, by injection h with h3; exact h3.symm⟩

theorem isCanonicalTs_isoFormat {e : Int} (he : epochInRange e) :
    isCanonicalTs (isoFormat e) = true := by
  obtain ⟨y, mo, d, h, mi, sec, hv, hchars, _⟩ := isoFormat_components e he
  show (canonComponents (isoFormatChars e)).isSome = true
  rw [hchars, canonComponents_canonChars hv]
  rfl

/-! ## C3: normalization totality -/

/-- C3 counterexample: the numeric branch of `_normalize_timestamp` calls
`datetime.fromtimestamp` with no exception handler, so a numeric value
outside the representable datetime range raises instead of returning a
canonical string (CPython: `OverflowError: timestamp out of range for
platform time_t`). -/
theorem normalize_overflow_counterexample :
    normalize_timestamp 0 0 (.num (10 ^ 20)) = none := by decide

/-- C3 (amended): `_normalize_timestamp` returns (never raises) a string
in the canonical UTC whole-second `Z`-suffixed format for every input
whose numeric interpretation stays inside the representable datetime
range (years 1..9999) — in particular for null, the empty string, any
garbage string, and any in-range (also negative) number.  Direct numeric
values outside that range, and ISO strings whose UTC conversion leaves
it, raise instead. -/
theorem normalize_totality_amended (now localOff : Int) (v : TsValue)
    (hnow : epochInRange now) (hv : safeTs localOff v = true) :
    ∃ s, normalize_timestamp now localOff v = some s ∧ isCanonicalTs s = true := by
  have hex : ∃ s, normalize_timestamp now localOff v = some s := by
    cases v with
    | null => exact ⟨_, rfl⟩
    | num n =>
      simp only [safeTs, decide_eq_true_eq] at hv
      simp only [normalize_timestamp]
      rw [if_pos hv]
      exact ⟨_, rfl⟩
    | str s0 =>
      simp only [normalize_timestamp]
      split_ifs with h1 h2
      · exact ⟨_, rfl⟩
      · exact ⟨_, rfl⟩
      · cases hp : fromisoformat (replaceZ (pyStrip s0.data)) with
        | some dt =>
          simp only [safeTs, hp, decide_eq_true_eq] at hv
          dsimp only
          rw [if_pos hv]
          exact ⟨_, rfl⟩
        | none =>
          dsimp only
          cases hf : pyFloatFloor (pyStrip s0.data) with
          | some w =>
            dsimp only
            split_ifs <;> exact ⟨_, rfl⟩
          | none =>
            dsimp only
            exact ⟨_, rfl⟩
  obtain ⟨s, hs⟩ := hex
  obtain ⟨e, he, rfl⟩ := normalize_some_form hnow hs
  exact ⟨isoFormat e, hs, isCanonicalTs_isoFormat he⟩

theorem normalize_totality_amended_witness :
    (epochInRange 0 ∧ safeTs 5 (.str "not a timestamp") = true) ∧
    (∃ s, normalize_timestamp 0 5 (.str "not a timestamp") = some s ∧
      isCanonicalTs s = true) :=
  ⟨⟨by decide, by decide⟩,
    normalize_totality_amended 0 5 (.str "not a timestamp") (by decide) (by decide)⟩

/-! ## C4: normalization idempotence -/

/-- C4: `_normalize_timestamp` is idempotent — feeding a successful
result back in (at any later current time and in any local timezone)
returns it unchanged, and any string already in the canonical UTC
`Z`-suffixed whole-second format is returned unchanged. -/
theorem normalize_idempotent (now localOff now2 localOff2 : Int) (x : TsValue)
    (s : String) :
    (epochInRange now → normalize_timestamp now localOff x = some s →
      normalize_timestamp now2 localOff2 (.str s) = some s) ∧
    (isCanonicalTs s = true → normalize_timestamp now2 localOff2 (.str s) = some s) := by
  have hcanon : ∀ t : String, isCanonicalTs t = true →
      normalize_timestamp now2 localOff2 (.str t) = some t := by
    intro t ht
    unfold isCanonicalTs at ht
    rw [Option.isSome_iff_exists] at ht
    obtain ⟨⟨y, mo, d, h, mi, sec⟩, hcc⟩ := ht
    obtain ⟨hdata, hv⟩ := canonComponents_inv hcc
    have ht2 : t = ⟨canonChars y mo d h mi sec⟩ := by
      cases t with
      | mk data =>
        dsimp only at hdata
        rw [hdata]
    rw [ht2]
    exact normalize_canonical hv now2 localOff2
  constructor
  · intro hnow h
    obtain ⟨e, he, rfl⟩ := normalize_some_form hnow h
    exact hcanon _ (isCanonicalTs_isoFormat he)
  · exact hcanon s

theorem normalize_idempotent_witness :
    (epochInRange 1000000000 ∧
      normalize_timestamp 1000000000 0 (.num 1622896496) =
        some "2021-06-05T12:34:56Z") ∧
    normalize_timestamp 0 0 (.str "2021-06-05T12:34:56Z") =
      some "2021-06-05T12:34:56Z" ∧
    (isCanonicalTs "1999-12-31T23:59:59Z" = true ∧
      normalize_timestamp 7 3 (.str "1999-12-31T23:59:59Z") =
        some "1999-12-31T23:59:59Z") := by
  refine ⟨⟨by decide, by decide⟩, ?_, by decide, ?_⟩
  · exact (normalize_idempotent 1000000000 0 0 0 (.num 1622896496)
      "2021-06-05T12:34:56Z").1 (by decide) (by decide)
  · exact (normalize_idempotent 0 0 7 3 TsValue.null "1999-12-31T23:59:59Z").2 (by decide)

/-! ## Message healing lemmas (get_history, message branch) -/

theorem healMsg_fields {now localOff : Int} {freshId : String} {m hm : StoredMsg}
    (h : healMsg now localOff freshId m = some hm) :
    ∃ ts, normalize_timestamp now localOff m.timestamp = some ts ∧
      hm = { m with
        id := some (match m.id with
          | some s => if s = "" then freshId else s
          | none => freshId),
        content := some (resolvedContent m),
        timestamp := .str ts,
        type := some (m.type.getD "message") } := by
  unfold healMsg at h
  cases hn : normalize_timestamp now localOff m.timestamp with
  | none => rw [hn] at h; simp at h
  | some ts =>
    rw [hn] at h
    simp only [Option.bind_eq_bind, Option.some_bind] at h
    exact ⟨ts, rfl, by injection h with h2; exact h2.symm⟩

theorem msgMatches_iff {u d : String} {m : StoredMsg} :
    msgMatches u d m = true ↔ m.user_id = some u ∧ m.doc_id = some d := by
  simp [msgMatches]

/-- Main induction lemma about the message loop of `get_history`:
(1) one output entry per matching stored record; (2) every output entry
carries the queried user/doc and the stored role; (3) stored records are
rewritten pointwise — non-matching ones untouched, matching ones changed
exactly by id-fill, content materialization, timestamp normalization and
type defaulting. -/
theorem healMessages_spec (now localOff : Int) (fresh : Nat → String) (u d : String) :
    ∀ (msgs : List StoredMsg) (i : Nat) (healed : List StoredMsg) (outs : List MsgOut),
    healMessages now localOff fresh u d i msgs = some (healed, outs) →
    outs.length = (msgs.filter (msgMatches u d)).length ∧
    (∀ o ∈ outs, ∃ m, m ∈ msgs ∧ msgMatches u d m = true ∧ o.user_id = u ∧
      o.doc_id = d ∧ o.role = m.role) ∧
    List.Forall₂ (fun m m2 =>
      (msgMatches u d m = false → m2 = m) ∧
      (msgMatches u d m = true → ∃ ts fid,
        normalize_timestamp now localOff m.timestamp = some ts ∧
        m2 = { m with
          id := some (match m.id with
            | some s => if s = "" then fid else s
            | none => fid),
          content := some (resolvedContent m),
          timestamp := TsValue.str ts,
          type := some (m.type.getD "message") })) msgs healed := by
  intro msgs
  induction msgs with
  | nil =>
    intro i healed outs h
    simp only [healMessages, Option.some.injEq, Prod.mk.injEq] at h
    obtain ⟨h1, h2⟩ := h
    subst h1; subst h2
    exact ⟨rfl, by simp, List.Forall₂.nil⟩
  | cons m rest ih =>
    intro i healed outs h
    simp only [healMessages] at h
    split_ifs at h with hmatch
    · cases hh : healMsg now localOff (fresh i) m with
      | none => rw [hh] at h; simp at h
      | some hm =>
        rw [hh] at h
        simp only [Option.bind_eq_bind, Option.some_bind] at h
        cases hrec : healMessages now localOff fresh u d (i + 1) rest with
        | none => rw [hrec] at h; simp at h
        | some p =>
          obtain ⟨hrest, outs2⟩ := p
          rw [hrec] at h
          simp only [Option.bind_eq_bind, Option.some_bind, Option.some.injEq,
            Prod.mk.injEq] at h
          obtain ⟨hhealed, houts⟩ := h
          subst hhealed; subst houts
          obtain ⟨ihl, ihm, ihf⟩ := ih (i + 1) hrest outs2 hrec
          obtain ⟨ts, hts, hhm⟩ := healMsg_fields hh
          obtain ⟨huid, hdid⟩ := msgMatches_iff.mp hmatch
          refine ⟨by simp [List.filter_cons, hmatch, ihl], ?_, ?_⟩
          · intro o ho
            rcases List.mem_cons.mp ho with rfl | ho2
            · refine ⟨m, by simp, hmatch, ?_, ?_, ?_⟩ <;>
                · rw [hhm]
                  simp [msgOut, huid, hdid]
            · obtain ⟨m2, hm2a, hm2b, hm2c, hm2d, hm2e⟩ := ihm o ho2
              exact ⟨m2, List.mem_cons_of_mem _ hm2a, hm2b, hm2c, hm2d, hm2e⟩
          · refine List.Forall₂.cons ⟨?_, ?_⟩ ihf
            · intro hf
              rw [hmatch] at hf
              exact absurd hf (by simp)
            · intro _
              exact ⟨ts, fresh i, hts, hhm⟩
    · cases hrec : healMessages now localOff fresh u d (i + 1) rest with
      | none => rw [hrec] at h; simp at h
      | some p =>
        obtain ⟨hrest, outs2⟩ := p
        rw [hrec] at h
        simp only [Option.bind_eq_bind, Option.some_bind, Option.some.injEq,
          Prod.mk.injEq] at h
        obtain ⟨hhealed, houts⟩ := h
        subst hhealed; subst houts
        obtain ⟨ihl, ihm, ihf⟩ := ih (i + 1) hrest outs2 hrec
        have hfalse : msgMatches u d m = false := by
          rcases Bool.eq_false_or_eq_true (msgMatches u d m) with hf | ht
          · exact absurd hf hmatch
          · exact ht
        refine ⟨by simp [List.filter_cons, hfalse, ihl], ?_, ?_⟩
        · intro o ho
          obtain ⟨m2, hm2a, hm2b, hm2c, hm2d, hm2e⟩ := ihm o ho
          exact ⟨m2, List.mem_cons_of_mem _ hm2a, hm2b, hm2c, hm2d, hm2e⟩
        · refine List.Forall₂.cons ⟨fun _ => rfl, ?_⟩ ihf
          intro ht
          rw [hfalse] at ht
          exact absurd ht (by simp)

/-! ## The timestamp sort order is total and transitive -/

theorem charsLe_total : ∀ as bs : List Char, charsLe as bs = true ∨ charsLe bs as = true := by
  intro as
  induction as with
  | nil => intro bs; left; rfl
  | cons a as ih =>
    intro bs
    cases bs with
    | nil => right; rfl
    | cons b bs =>
      by_cases hab : a = b
      · subst hab
        simpa [charsLe] using ih bs
      · rcases lt_or_gt_of_ne hab with hlt | hgt
        · left; simp [charsLe, hab, hlt]
        · right; simp [charsLe, Ne.symm hab, hgt]

theorem charsLe_trans : ∀ as bs cs : List Char, charsLe as bs = true →
    charsLe bs cs = true → charsLe as cs = true := by
  intro as
  induction as with
  | nil => intro bs cs _ _; rfl
  | cons a as ih =>
    intro bs cs h1 h2
    cases bs with
    | nil => simp [charsLe] at h1
    | cons b bs =>
      cases cs with
      | nil => simp [charsLe] at h2
      | cons c cs =>
        by_cases hab : a = b <;> by_cases hbc : b = c
        · subst hab; subst hbc
          simp only [charsLe, if_pos rfl] at h1 h2 ⊢
          exact ih bs cs h1 h2
        · subst hab
          simp only [charsLe, if_pos rfl] at h1
          simp only [charsLe, if_neg hbc, decide_eq_true_eq] at h2
          simp [charsLe, hbc, h2]
        · subst hbc
          simp only [charsLe, if_neg hab, decide_eq_true_eq] at h1
          simp [charsLe, hab, h1]
        · simp only [charsLe, if_neg hab, decide_eq_true_eq] at h1
          simp only [charsLe, if_neg hbc, decide_eq_true_eq] at h2
          have hac : a < c := lt_trans h1 h2
          simp [charsLe, ne_of_lt hac, hac]

instance : IsTotal MsgOut tsLe :=
  ⟨fun a b => charsLe_total a.timestamp.data b.timestamp.data⟩

instance : IsTrans MsgOut tsLe :=
  ⟨fun a b c hab hbc => charsLe_trans _ _ _ hab hbc⟩

/-! ## C2: history filtering and ordering -/

/-- C2 (amended): whenever `get_history(userId, docId)` succeeds — i.e.
every matching stored timestamp is accepted by the normalizer — it
returns exactly the messages whose `user_id` and `doc_id` both match the
query (one output per matching stored record, carrying the queried user
and doc and the stored role), sorted in ascending order of their
normalized timestamp strings, whatever order they were saved in. -/
theorem get_history_sorted (db : LocalDB) (u d : String)
    (now localOff : Int) (fresh : Nat → String) (out : List MsgOut) (db2 : LocalDB)
    (h : get_history db u (some d) now localOff fresh = some (.messages out, db2)) :
    List.Sorted tsLe out ∧
    ∃ healed outs,
      healMessages now localOff fresh u d 0 db.messages = some (healed, outs) ∧
      out.Perm outs ∧
      outs.length = (db.messages.filter (msgMatches u d)).length ∧
      ∀ o ∈ out, ∃ m, m ∈ db.messages ∧ msgMatches u d m = true ∧
        o.user_id = u ∧ o.doc_id = d ∧ o.role = m.role := by
  unfold get_history at h
  by_cases ht : docIdTruthy (some d) = true
  · rw [if_pos ht] at h
    cases hhm : healMessages now localOff fresh u d 0 db.messages with
    | none =>
      rw [show (some d).getD "" = d from rfl, hhm] at h
      simp at h
    | some p =>
      obtain ⟨healed, outs⟩ := p
      rw [show (some d).getD "" = d from rfl, hhm] at h
      simp only [Option.bind_eq_bind, Option.some_bind, Option.some.injEq,
        Prod.mk.injEq, HistOut.messages.injEq] at h
      obtain ⟨hout, hdb⟩ := h
      obtain ⟨hl, hmem, _⟩ :=
        healMessages_spec now localOff fresh u d db.messages 0 healed outs hhm
      refine ⟨?_, healed, outs, rfl, ?_, hl, ?_⟩
      · rw [← hout]
        exact List.sorted_insertionSort tsLe outs
      · rw [← hout]
        exact List.perm_insertionSort tsLe outs
      · intro o ho
        rw [← hout] at ho
        exact hmem o ((List.perm_insertionSort tsLe outs).subset ho)
  · rw [if_neg ht] at h
    cases hhd : healDocs now localOff u db.documents with
    | none => rw [hhd] at h; simp at h
    | some p =>
      obtain ⟨hd2, outs2⟩ := p
      rw [hhd] at h
      simp at h

/-- A stored message whose numeric timestamp overflows the datetime range. -/
def msgBadTs : StoredMsg :=
  { id := some "m1", user_id := some "u", doc_id := some "d", role := "user",
    content := some "hi", message := none, timestamp := .num (10 ^ 20),
    type := some "message" }

/-- Database holding only `msgBadTs`. -/
def dbBadTs : LocalDB := { documents := [], messages := [msgBadTs] }

/-- C2 counterexample: `get_history` does not return a sorted list for
arbitrary stored timestamp values — a stored numeric timestamp outside
the representable datetime range makes `_normalize_timestamp` raise, and
the exception escapes `get_history` (modelled as `none`) instead of any
message list being returned. -/
theorem get_history_raises_counterexample :
    get_history dbBadTs "u" (some "d") 0 0 (fun _ => "fresh") = none := by decide

/-- The spec scenario: a message with timestamp T+5 saved first. -/
def msgT5 : StoredMsg :=
  { id := some "m1", user_id := some "u1", doc_id := some "d1", role := "user",
    content := some "hi", message := none,
    timestamp := .str "2021-01-01T00:00:05Z", type := some "message" }

/-- The spec scenario: a message with timestamp T+1 saved second. -/
def msgT1 : StoredMsg :=
  { id := some "m2", user_id := some "u1", doc_id := some "d1", role := "assistant",
    content := some "yo", message := none,
    timestamp := .str "2021-01-01T00:00:01Z", type := some "message" }

/-- Scenario database: the T+5 message stored before the T+1 message. -/
def dbScenario2 : LocalDB := { documents := [], messages := [msgT5, msgT1] }

/-- Expected first history entry (the later-saved, earlier-stamped one). -/
def outT1 : MsgOut :=
  { id := "m2", type := "message", user_id := "u1", doc_id := "d1",
    role := "assistant", content := "yo", timestamp := "2021-01-01T00:00:01Z" }

/-- Expected second history entry. -/
def outT5 : MsgOut :=
  { id := "m1", type := "message", user_id := "u1", doc_id := "d1",
    role := "user", content := "hi", timestamp := "2021-01-01T00:00:05Z" }

theorem get_history_sorted_witness :
    get_history dbScenario2 "u1" (some "d1") 0 0 (fun _ => "f") =
      some (.messages [outT1, outT5], dbScenario2) ∧
    List.Sorted tsLe [outT1, outT5] := by
  have h : get_history dbScenario2 "u1" (some "d1") 0 0 (fun _ => "f") =
      some (.messages [outT1, outT5], dbScenario2) := by decide
  exact ⟨h, (get_history_sorted dbScenario2 "u1" "d1" 0 0 (fun _ => "f")
    [outT1, outT5] dbScenario2 h).1⟩

/-! ## C8: which fields a read may rewrite -/

/-- Pointwise effect of the document branch of `get_history` on stored
Document records: non-matching documents are untouched; a matching
document is rewritten only by normalizing its `created_at` field. -/
theorem healDocs_frame (now localOff : Int) (u : String) :
    ∀ (docs healed : List StoredDoc) (outs : List DocDict),
    healDocs now localOff u docs = some (healed, outs) →
    List.Forall₂ (fun doc doc2 =>
      ((doc.user_id == u) = false → doc2 = doc) ∧
      ((doc.user_id == u) = true → ∃ ca,
        normalize_timestamp now localOff doc.created_at = some ca ∧
        doc2 = { doc with created_at := TsValue.str ca })) docs healed := by
  intro docs
  induction docs with
  | nil =>
    intro healed outs h
    simp only [healDocs, Option.some.injEq, Prod.mk.injEq] at h
    obtain ⟨h1, h2⟩ := h
    subst h1
    exact List.Forall₂.nil
  | cons doc rest ih =>
    intro healed outs h
    simp only [healDocs] at h
    split_ifs at h with hmatch
    · cases hn : normalize_timestamp now localOff doc.created_at with
      | none => rw [hn] at h; simp at h
      | some ca =>
        rw [hn] at h
        simp only [Option.bind_eq_bind, Option.some_bind] at h
        cases hrec : healDocs now localOff u rest with
        | none => rw [hrec] at h; simp at h
        | some p =>
          obtain ⟨hrest, outs2⟩ := p
          rw [hrec] at h
          simp only [Option.bind_eq_bind, Option.some_bind, Option.some.injEq,
            Prod.mk.injEq] at h
          obtain ⟨hhealed, houts⟩ := h
          subst hhealed
          refine List.Forall₂.cons ⟨?_, ?_⟩ (ih hrest outs2 hrec)
          · intro hf
            simp [hmatch] at hf
          · intro _
            exact ⟨ca, hn, rfl⟩
    · cases hrec : healDocs now localOff u rest with
      | none => rw [hrec] at h; simp at h
      | some p =>
        obtain ⟨hrest, outs2⟩ := p
        rw [hrec] at h
        simp only [Option.bind_eq_bind, Option.some_bind, Option.some.injEq,
          Prod.mk.injEq] at h
        obtain ⟨hhealed, houts⟩ := h
        subst hhealed
        have hfalse : (doc.user_id == u) = false := by
          rcases Bool.eq_false_or_eq_true (doc.user_id == u) with hf | ht
          · exact absurd hf hmatch
          · exact ht
        refine List.Forall₂.cons ⟨fun _ => rfl, ?_⟩ (ih hrest outs2 hrec)
        intro ht
        simp [hfalse] at ht

/-- C8 (amended): every read rewrites stored records only as self-healing
prescribes, on either branch of `get_history`.  With a docId: Document
records are untouched; a non-matching Message record is unchanged
bit-for-bit; a matching message keeps its user_id, doc_id, role and
legacy `message` fields, has its timestamp replaced by its normalized
form, keeps its id when present and nonempty (fills a fresh one
otherwise), keeps its content when present and nonempty (materializes it
from the legacy field otherwise), and gets a missing `type`
discriminator defaulted — so on this branch the rewrite on read is *not*
limited to the timestamp field alone.  With docId absent: Message
records are untouched, a non-matching Document record is unchanged, and
a matching Document record is rewritten only in its `created_at`
timestamp field, every other field (id, user_id, file_name, blob_name,
blob_url, document_text, type) being left as stored — on this branch the
original claim holds as written. -/
theorem get_history_frame (db : LocalDB) (u : String) (doc_id : Option String)
    (now localOff : Int) (fresh : Nat → String) :
    (∀ out db2, get_history db u doc_id now localOff fresh = some (.messages out, db2) →
      db2.documents = db.documents ∧
      List.Forall₂ (fun m m2 =>
        m2.user_id = m.user_id ∧ m2.doc_id = m.doc_id ∧ m2.role = m.role ∧
        m2.message = m.message ∧
        (msgMatches u (doc_id.getD "") m = false → m2 = m) ∧
        (msgMatches u (doc_id.getD "") m = true →
          (∃ ts, normalize_timestamp now localOff m.timestamp = some ts ∧
            m2.timestamp = TsValue.str ts) ∧
          (∀ s, m.id = some s → s ≠ "" → m2.id = m.id) ∧
          (∀ c, m.content = some c → c ≠ "" → m2.content = m.content) ∧
          m2.content = some (resolvedContent m) ∧
          m2.type = some (m.type.getD "message"))) db.messages db2.messages) ∧
    (∀ docs db2, get_history db u doc_id now localOff fresh = some (.documents docs, db2) →
      db2.messages = db.messages ∧
      List.Forall₂ (fun doc doc2 =>
        doc2.id = doc.id ∧ doc2.user_id = doc.user_id ∧
        doc2.file_name = doc.file_name ∧ doc2.blob_name = doc.blob_name ∧
        doc2.blob_url = doc.blob_url ∧ doc2.document_text = doc.document_text ∧
        doc2.type = doc.type ∧
        ((doc.user_id == u) = false → doc2 = doc) ∧
        ((doc.user_id == u) = true → ∃ ca,
          normalize_timestamp now localOff doc.created_at = some ca ∧
          doc2.created_at = TsValue.str ca)) db.documents db2.documents) := by
  constructor
  · intro out db2 h
    unfold get_history at h
    by_cases ht : docIdTruthy doc_id = true
    · rw [if_pos ht] at h
      cases hhm : healMessages now localOff fresh u (doc_id.getD "") 0 db.messages with
      | none =>
        rw [hhm] at h
        simp at h
      | some p =>
        obtain ⟨healed, outs⟩ := p
        rw [hhm] at h
        simp only [Option.bind_eq_bind, Option.some_bind, Option.some.injEq,
          Prod.mk.injEq, HistOut.messages.injEq] at h
        obtain ⟨hout, hdb⟩ := h
        obtain ⟨_, _, hf⟩ :=
          healMessages_spec now localOff fresh u (doc_id.getD "") db.messages 0
            healed outs hhm
        rw [← hdb]
        refine ⟨rfl, ?_⟩
        show List.Forall₂ _ db.messages healed
        refine hf.imp ?_
        intro m m2 hpred
        obtain ⟨hfalse, htrue⟩ := hpred
        cases hmt : msgMatches u (doc_id.getD "") m with
        | false =>
          have hm2 : m2 = m := hfalse hmt
          subst hm2
          exact ⟨rfl, rfl, rfl, rfl, fun _ => rfl, fun hcontra => by simp at hcontra⟩
        | true =>
          obtain ⟨ts, fid, hts, hm2⟩ := htrue hmt
          subst hm2
          refine ⟨rfl, rfl, rfl, rfl, fun hcontra => by simp at hcontra, ?_⟩
          intro _
          refine ⟨⟨ts, hts, rfl⟩, ?_, ?_, rfl, rfl⟩
          · intro s hs hsne
            rw [hs]
            simp [hs, hsne]
          · intro c hc hcne
            rw [hc]
            show some (resolvedContent m) = some c
            unfold resolvedContent truthyStr
            rw [hc]
            simp [hcne]
    · rw [if_neg ht] at h
      cases hhd : healDocs now localOff u db.documents with
      | none => rw [hhd] at h; simp at h
      | some p =>
        obtain ⟨hd2, outs2⟩ := p
        rw [hhd] at h
        simp at h
  · intro docs db2 h
    unfold get_history at h
    by_cases ht : docIdTruthy doc_id = true
    · rw [if_pos ht] at h
      cases hhm : healMessages now localOff fresh u (doc_id.getD "") 0 db.messages with
      | none => rw [hhm] at h; simp at h
      | some p =>
        obtain ⟨healed, outs⟩ := p
        rw [hhm] at h
        simp at h
    · rw [if_neg ht] at h
      cases hhd : healDocs now localOff u db.documents with
      | none => rw [hhd] at h; simp at h
      | some p =>
        obtain ⟨healed, outs⟩ := p
        rw [hhd] at h
        simp only [Option.bind_eq_bind, Option.some_bind, Option.some.injEq,
          Prod.mk.injEq, HistOut.documents.injEq] at h
        obtain ⟨houts, hdb⟩ := h
        rw [← hdb]
        refine ⟨rfl, ?_⟩
        show List.Forall₂ _ db.documents healed
        refine (healDocs_frame now localOff u db.documents healed outs hhd).imp ?_
        intro doc doc2 hpred
        obtain ⟨hfalse, htrue⟩ := hpred
        cases hmt : (doc.user_id == u) with
        | false =>
          have hd2eq : doc2 = doc := hfalse hmt
          subst hd2eq
          exact ⟨rfl, rfl, rfl, rfl, rfl, rfl, rfl, fun _ => rfl,
            fun hcontra => by simp at hcontra⟩
        | true =>
          obtain ⟨ca, hn, hd2eq⟩ := htrue hmt
          subst hd2eq
          exact ⟨rfl, rfl, rfl, rfl, rfl, rfl, rfl,
            fun hcontra => by simp at hcontra, fun _ => ⟨ca, hn, rfl⟩⟩

/-- A stored message with an empty id (healing will replace it). -/
def msgEmptyId : StoredMsg :=
  { id := some "", user_id := some "u", doc_id := some "d", role := "user",
    content := some "hi", message := none,
    timestamp := .str "2021-01-01T00:00:00Z", type := some "message" }

/-- Database holding only `msgEmptyId`. -/
def dbEmptyId : LocalDB := { documents := [], messages := [msgEmptyId] }

/-- The record as persisted after one read: only the id changed. -/
def msgEmptyIdHealed : StoredMsg := { msgEmptyId with id := some "new-id" }

/-- Database state after the healing read. -/
def dbEmptyIdHealed : LocalDB := { documents := [], messages := [msgEmptyIdHealed] }

/-- The history entry returned for `msgEmptyId`. -/
def outEmptyId : MsgOut :=
  { id := "new-id", type := "message", user_id := "u", doc_id := "d",
    role := "user", content := "hi", timestamp := "2021-01-01T00:00:00Z" }

/-- C8 counterexample: a read rewrites more than the malformed timestamp
field — here the stored message's empty `id` field is replaced by a
fresh uuid and written back, even though its timestamp was already
canonical. -/
theorem get_history_rewrites_id_counterexample :
    (get_history dbEmptyId "u" (some "d") 0 0 (fun _ => "new-id")).map
        (fun p => p.2.messages.map (fun m => m.id)) = some [some "new-id"] ∧
    dbEmptyId.messages.map (fun m => m.id) = [some ""] := by decide

/-! ## C9: list_documents versus get_history document summaries -/

/-- Every summary produced by the document branch of `get_history` is the
seven-field dict built from a matching stored document. -/
theorem healDocs_spec (now localOff : Int) (u : String) :
    ∀ (docs healed : List StoredDoc) (outs : List DocDict),
    healDocs now localOff u docs = some (healed, outs) →
    ∀ dd ∈ outs, ∃ (doc : StoredDoc) (ca : String), doc ∈ docs ∧ doc.user_id = u ∧
      normalize_timestamp now localOff doc.created_at = some ca ∧
      dd = [("id", .s doc.id), ("type", .s (doc.type.getD "document")),
        ("user_id", .s doc.user_id), ("file_name", .s (doc.file_name.getD "")),
        ("blob_name", optField doc.blob_name), ("blob_url", optField doc.blob_url),
        ("created_at", .s ca)] := by
  intro docs
  induction docs with
  | nil =>
    intro healed outs h
    simp only [healDocs, Option.some.injEq, Prod.mk.injEq] at h
    obtain ⟨h1, h2⟩ := h
    subst h2
    simp
  | cons doc rest ih =>
    intro healed outs h
    simp only [healDocs] at h
    split_ifs at h with hmatch
    · cases hn : normalize_timestamp now localOff doc.created_at with
      | none => rw [hn] at h; simp at h
      | some ca =>
        rw [hn] at h
        simp only [Option.bind_eq_bind, Option.some_bind] at h
        cases hrec : healDocs now localOff u rest with
        | none => rw [hrec] at h; simp at h
        | some p =>
          obtain ⟨hrest, outs2⟩ := p
          rw [hrec] at h
          simp only [Option.bind_eq_bind, Option.some_bind, Option.some.injEq,
            Prod.mk.injEq] at h
          obtain ⟨hhealed, houts⟩ := h
          subst houts
          intro dd hdd
          rcases List.mem_cons.mp hdd with rfl | hdd2
          · exact ⟨doc, ca, by simp, by simpa using hmatch, hn, rfl⟩
          · obtain ⟨doc2, ca2, hmem, hu2, hn2, hshape⟩ := ih hrest outs2 hrec dd hdd2
            exact ⟨doc2, ca2, List.mem_cons_of_mem _ hmem, hu2, hn2, hshape⟩
    · cases hrec : healDocs now localOff u rest with
      | none => rw [hrec] at h; simp at h
      | some p =>
        obtain ⟨hrest, outs2⟩ := p
        rw [hrec] at h
        simp only [Option.bind_eq_bind, Option.some_bind, Option.some.injEq,
          Prod.mk.injEq] at h
        obtain ⟨hhealed, houts⟩ := h
        subst houts
        intro dd hdd
        obtain ⟨doc2, ca2, hmem, hu2, hn2, hshape⟩ := ih hrest outs2 hrec dd hdd
        exact ⟨doc2, ca2, List.mem_cons_of_mem _ hmem, hu2, hn2, hshape⟩

theorem forall₂_map_self {α β : Type} (R : α → β → Prop) (f : α → β) :
    ∀ l : List α, (∀ x ∈ l, R x (f x)) → List.Forall₂ R l (l.map f) := by
  intro l
  induction l with
  | nil => intro _; exact List.Forall₂.nil
  | cons x xs ih =>
    intro hall
    exact List.Forall₂.cons (hall x (by simp))
      (ih fun z hz => hall z (List.mem_cons_of_mem _ hz))

/-- C9 (amended): in local mode `list_documents(userId)` returns exactly
the summaries of `get_history(userId, docId absent)` projected onto the
four response fields {id, file_name, blob_url, created_at}, in the same
order and with the same values at those keys; the `get_history` record
additionally carries `type`, `user_id` and `blob_name`, which the
projection drops, so the two records are not field-for-field identical. -/
theorem list_documents_projection (db : LocalDB) (u : String) (now localOff : Int)
    (fresh : Nat → String) (docs : List DocDict) (db2 : LocalDB)
    (h : get_history db u none now localOff fresh = some (.documents docs, db2)) :
    ∃ summaries, list_documents db u now localOff fresh = some summaries ∧
      List.Forall₂ (fun doc s =>
        dictGet s "id" = dictGet doc "id" ∧
        dictGet s "file_name" = dictGet doc "file_name" ∧
        dictGet s "blob_url" = dictGet doc "blob_url" ∧
        dictGet s "created_at" = dictGet doc "created_at" ∧
        s.map Prod.fst = ["id", "file_name", "blob_url", "created_at"] ∧
        doc.map Prod.fst = ["id", "type", "user_id", "file_name", "blob_name",
          "blob_url", "created_at"]) docs summaries := by
  have hdocs : ∀ dd ∈ docs, ∃ (doc : StoredDoc) (ca : String),
      dd = [("id", .s doc.id), ("type", .s (doc.type.getD "document")),
        ("user_id", .s doc.user_id), ("file_name", .s (doc.file_name.getD "")),
        ("blob_name", optField doc.blob_name), ("blob_url", optField doc.blob_url),
        ("created_at", .s ca)] := by
    unfold get_history at h
    rw [if_neg (by decide : ¬docIdTruthy none = true)] at h
    cases hhd : healDocs now localOff u db.documents with
    | none => rw [hhd] at h; simp at h
    | some p =>
      obtain ⟨healed, outs⟩ := p
      rw [hhd] at h
      simp only [Option.bind_eq_bind, Option.some_bind, Option.some.injEq,
        Prod.mk.injEq, HistOut.documents.injEq] at h
      obtain ⟨houts, hdb⟩ := h
      subst houts
      intro dd hdd
      obtain ⟨doc, ca, _, _, _, hshape⟩ :=
        healDocs_spec now localOff u db.documents healed outs hhd dd hdd
      exact ⟨doc, ca, hshape⟩
  have hld : list_documents db u now localOff fresh =
      some (docs.map (fun doc =>
        [("id", pyGet doc "id" .null), ("file_name", pyGet doc "file_name" (.s "")),
         ("blob_url", pyGet doc "blob_url" .null),
         ("created_at", pyGet doc "created_at" .null)])) := by
    unfold list_documents
    rw [h]
    simp only [Option.bind_eq_bind, Option.some_bind]
  refine ⟨_, hld, ?_⟩
  refine forall₂_map_self _ _ docs ?_
  intro dd hdd
  obtain ⟨doc, ca, hshape⟩ := hdocs dd hdd
  subst hshape
  exact ⟨rfl, rfl, rfl, rfl, rfl, rfl⟩

/-- The full seven-field summary `get_history` returns for `docD1`. -/
def docFull1 : DocDict :=
  [("id", .s "d1"), ("type", .s "document"), ("user_id", .s "u1"),
   ("file_name", .s "f.pdf"), ("blob_name", .s "u1/f.pdf"),
   ("blob_url", .s "file:///tmp/u1/f.pdf"), ("created_at", .s "2021-01-01T00:00:00Z")]

/-- The four-field summary `list_documents` returns for `docD1`. -/
def docSummary1 : DocDict :=
  [("id", .s "d1"), ("file_name", .s "f.pdf"),
   ("blob_url", .s "file:///tmp/u1/f.pdf"), ("created_at", .s "2021-01-01T00:00:00Z")]

theorem get_history_frame_witness :
    (get_history dbEmptyId "u" (some "d") 0 0 (fun _ => "new-id") =
      some (.messages [outEmptyId], dbEmptyIdHealed) ∧
     dbEmptyIdHealed.documents = dbEmptyId.documents) ∧
    (get_history dbScenario1 "u1" none 0 0 (fun _ => "z") =
      some (.documents [docFull1], dbScenario1) ∧
     dbScenario1.messages = dbScenario1.messages) := by
  have h1 : get_history dbEmptyId "u" (some "d") 0 0 (fun _ => "new-id") =
      some (.messages [outEmptyId], dbEmptyIdHealed) := by decide
  have h2 : get_history dbScenario1 "u1" none 0 0 (fun _ => "z") =
      some (.documents [docFull1], dbScenario1) := by decide
  exact ⟨⟨h1, ((get_history_frame dbEmptyId "u" (some "d") 0 0
      (fun _ => "new-id")).1 [outEmptyId] dbEmptyIdHealed h1).1⟩,
    ⟨h2, ((get_history_frame dbScenario1 "u1" none 0 0 (fun _ => "z")).2
      [docFull1] dbScenario1 h2).1⟩⟩

/-- C9 counterexample: with one stored document, the record returned by
`list_documents` is not the same record as `get_history`'s summary — the
latter additionally carries the `type`, `user_id` and `blob_name`
fields, which the former drops. -/
theorem list_documents_not_same_counterexample :
    list_documents dbScenario1 "u1" 0 0 (fun _ => "f") = some [docSummary1] ∧
    get_history dbScenario1 "u1" none 0 0 (fun _ => "f") =
      some (.documents [docFull1], dbScenario1) ∧
    docSummary1 ≠ docFull1 := by decide

theorem list_documents_projection_witness :
    get_history dbScenario1 "u1" none 0 0 (fun _ => "f") =
      some (.documents [docFull1], dbScenario1) ∧
    ∃ summaries, list_documents dbScenario1 "u1" 0 0 (fun _ => "f") = some summaries ∧
      List.Forall₂ (fun doc s =>
        dictGet s "id" = dictGet doc "id" ∧
        dictGet s "file_name" = dictGet doc "file_name" ∧
        dictGet s "blob_url" = dictGet doc "blob_url" ∧
        dictGet s "created_at" = dictGet doc "created_at" ∧
        s.map Prod.fst = ["id", "file_name", "blob_url", "created_at"] ∧
        doc.map Prod.fst = ["id", "type", "user_id", "file_name", "blob_name",
          "blob_url", "created_at"]) [docFull1] summaries := by
  have h : get_history dbScenario1 "u1" none 0 0 (fun _ => "f") =
      some (.documents [docFull1], dbScenario1) := by decide
  exact ⟨h, list_documents_projection dbScenario1 "u1" 0 0 (fun _ => "f")
    [docFull1] dbScenario1 h⟩
